import Mathlib

/-!
Verification development for the provider-adaptation and tool-call
reconstruction layer of the repository: the tag-based tool-call parser
(`anthropic-tool-parser.ts`), the Anthropic provider adapter
(`providers/anthropic.ts`), the provider router (`providers/factory.ts`)
and the persistent Aider subprocess orchestrator (`tools/aider-service.ts`).

Strings are modelled as `List Char` (JS strings are sequences of UTF-16
code units; all inputs reasoned about here are plain code points, so a
character list is an adequate model).  JavaScript regular-expression
scans are modelled by explicit left-to-right scanners that are proved or
argued equivalent to the source regexes on the relevant inputs; each
scanner's doc comment cites the regex it embeds.
-/

namespace GeminiAnthropic

/-- Character-list model of a JavaScript string. -/
abbrev Str := List Char

/-- The ASCII portion of the JavaScript whitespace class used by the
regex class in the parser and by the trim operations.  (JS also counts
some Unicode spaces; none occur in the inputs modelled here.) -/
def isJsSpace (c : Char) : Bool :=
  c = ' ' || c = '\t' || c = '\n' || c = '\r' || c = '\x0b' || c = '\x0c'

/-- True when the string contains no tag-opening character. -/
def noLt (s : Str) : Bool := s.all (fun c => c ≠ '<')

/-- JS `String.prototype.trim` (both ends, whitespace per `isJsSpace`). -/
def trimStr (s : Str) : Str :=
  ((s.dropWhile isJsSpace).reverse.dropWhile isJsSpace).reverse

/-- JS `Array.prototype.join('\n')`. -/
def joinNl : List Str → Str
  | [] => []
  | [x] => x
  | x :: xs => x ++ '\n' :: joinNl xs

/-- Splits off the part of `s` before the first occurrence of `pat`
together with the part after it: `splitFirst pat s = some (pre, post)`
iff `s = pre ++ pat ++ post` with `pre` of minimal length.  This is the
model of a leftmost literal search, the backbone of the lazy regex
bodies (`[\s\S]*?` up to a closing literal). -/
def splitFirst (pat : Str) : Str → Option (Str × Str)
  | [] => if pat.isEmpty then some ([], []) else none
  | c :: cs =>
    if pat.isPrefixOf (c :: cs) then some ([], (c :: cs).drop pat.length)
    else (splitFirst pat cs).map (fun pr => (c :: pr.1, pr.2))

/-- Substring test via `splitFirst` (JS `String.prototype.includes`). -/
def hasSub (pat s : Str) : Bool := (splitFirst pat s).isSome

/-- Consume a literal from the front of `s` (`none` when it is not
there). -/
def dropLit (pat s : Str) : Option Str :=
  if pat.isPrefixOf s then some (s.drop pat.length) else none

/-- Character-bounded substring, JS `s.substring(a, b)` for `a ≤ b`. -/
def subStr (s : Str) (a b : Nat) : Str := (s.drop a).take (b - a)

/-- JS `String.prototype.toLowerCase` (ASCII range, which is all the
router compares). -/
def lowerStr (s : Str) : Str := s.map Char.toLower

/-- JS `String.prototype.split('\n')`. -/
def splitLines : Str → List Str
  | [] => [[]]
  | c :: cs =>
    let r := splitLines cs
    if c = '\n' then [] :: r
    else match r with
      | [] => [[c]]
      | l :: ls => (c :: l) :: ls

/-- JS `Array.prototype.join('\n')` over lines (inverse of
`splitLines`). -/
def joinLines : List Str → Str := joinNl

/- ### Basic lemmas about the string utilities -/

theorem splitFirst_eq_append {pat s pre post : Str}
    (h : splitFirst pat s = some (pre, post)) : s = pre ++ pat ++ post := by
  induction s generalizing pre with
  | nil =>
    by_cases hp : pat.isEmpty
    · rw [splitFirst, if_pos hp] at h
      injection h with h
      injection h with h1 h2
      have hpe : pat = [] := List.isEmpty_iff.mp hp
      simp [← h1, ← h2, hpe]
    · rw [splitFirst, if_neg hp] at h
      exact absurd h (by simp)
  | cons c cs ih =>
    by_cases hp : pat.isPrefixOf (c :: cs) = true
    · rw [splitFirst, if_pos hp] at h
      injection h with h
      injection h with h1 h2
      obtain ⟨t, ht⟩ := List.isPrefixOf_iff_prefix.mp hp
      subst h1
      simp only [List.nil_append]
      rw [← ht] at h2 ⊢
      rw [List.drop_left] at h2
      rw [← h2]
    · rw [splitFirst, if_neg hp] at h
      cases hsf : splitFirst pat cs with
      | none => rw [hsf] at h; exact absurd h (by simp)
      | some pr =>
        obtain ⟨pre', post'⟩ := pr
        rw [hsf] at h
        injection h with h
        injection h with h1 h2
        subst h2
        have := ih hsf
        rw [← h1]
        simp [this]

theorem splitFirst_cons_miss {pat : Str} {c : Char} {cs : Str}
    (h : ¬ pat.isPrefixOf (c :: cs)) :
    splitFirst pat (c :: cs) =
      (splitFirst pat cs).map (fun pr => (c :: pr.1, pr.2)) := by
  rw [splitFirst, if_neg h]

theorem splitFirst_cons_isPrefix {pat : Str} {c : Char} {cs : Str}
    (h : pat.isPrefixOf (c :: cs)) :
    splitFirst pat (c :: cs) = some ([], (c :: cs).drop pat.length) := by
  rw [splitFirst, if_pos h]

theorem noLt_cons {c : Char} {cs : Str} (h : noLt (c :: cs) = true) :
    c ≠ '<' ∧ noLt cs = true := by
  simp only [noLt, List.all_cons, Bool.and_eq_true] at h
  exact ⟨by simpa using h.1, h.2⟩

/-- A pattern that opens with `'<'` cannot start inside a `'<'`-free
chunk, so a leftmost search passes over the chunk untouched. -/
theorem splitFirst_append_noLt {p' x y : Str} (hx : noLt x = true) :
    splitFirst ('<' :: p') (x ++ y) =
      (splitFirst ('<' :: p') y).map (fun pr => (x ++ pr.1, pr.2)) := by
  induction x with
  | nil =>
    simp only [List.nil_append]
    cases h : splitFirst ('<' :: p') y with
    | none => simp
    | some pr => simp
  | cons c cs ih =>
    obtain ⟨hc, hcs⟩ := noLt_cons hx
    have hnp : ¬ ('<' :: p').isPrefixOf (c :: (cs ++ y)) = true := by
      intro hp
      obtain ⟨t, ht⟩ := List.isPrefixOf_iff_prefix.mp hp
      injection ht with h1 _
      exact hc h1.symm
    simp only [List.cons_append]
    rw [splitFirst_cons_miss hnp, ih hcs]
    cases h : splitFirst ('<' :: p') y with
    | none => simp
    | some pr => simp

theorem hasSub_cons_false {pat : Str} {c : Char} {cs : Str}
    (h : hasSub pat (c :: cs) = false) : hasSub pat cs = false := by
  by_cases hp : pat.isPrefixOf (c :: cs)
  · rw [hasSub, splitFirst_cons_isPrefix hp] at h
    simp at h
  · rw [hasSub, splitFirst_cons_miss hp] at h
    rw [hasSub]
    cases hsf : splitFirst pat cs with
    | none => rfl
    | some pr => rw [hsf] at h; simp at h

theorem hasSub_drop_false {pat s : Str} (n : Nat)
    (h : hasSub pat s = false) : hasSub pat (s.drop n) = false := by
  induction n generalizing s with
  | zero => simpa using h
  | succ n ih =>
    cases s with
    | nil => simpa using h
    | cons c cs => exact ih (hasSub_cons_false h)

/- ### JSON values and `JSON.parse`

The parser and the streaming reconstructor both call the host's
`JSON.parse`.  `Jv` is the value shape it returns; a numeric literal is
kept as its source token (the host's floating-point reading of the token
is irrelevant to every claim, which only compare values structurally). -/

inductive Jv where
  | jnull : Jv
  | jbool (b : Bool) : Jv
  | jnum (tok : Str) : Jv
  | jstr (s : Str) : Jv
  | jarr (elems : List Jv) : Jv
  | jobj (fields : List (Str × Jv)) : Jv

/-- JSON whitespace (exactly space, tab, line feed, carriage return). -/
def isJsonWs (c : Char) : Bool :=
  c = ' ' || c = '\t' || c = '\n' || c = '\r'

/-- Skip JSON whitespace. -/
def skipWs (s : Str) : Str := s.dropWhile isJsonWs

/-- Hexadecimal digit value. -/
def hexVal? (c : Char) : Option Nat :=
  if '0' ≤ c ∧ c ≤ '9' then some (c.toNat - '0'.toNat)
  else if 'a' ≤ c ∧ c ≤ 'f' then some (c.toNat - 'a'.toNat + 10)
  else if 'A' ≤ c ∧ c ≤ 'F' then some (c.toNat - 'A'.toNat + 10)
  else none

/-- Body of a JSON string literal after the opening quote: returns the
decoded characters and the rest of the input after the closing quote.
A `\uXXXX` escape denoting a surrogate half decodes to NUL here (the
host would keep a lone UTF-16 unit; no modelled input contains one). -/
def jpStrBody : Str → Option (Str × Str)
  | [] => none
  | '"' :: r => some ([], r)
  | '\\' :: 'u' :: h1 :: h2 :: h3 :: h4 :: r =>
    match hexVal? h1, hexVal? h2, hexVal? h3, hexVal? h4 with
    | some a, some b, some c, some d =>
      (jpStrBody r).map
        (fun pr => (Char.ofNat (((a * 16 + b) * 16 + c) * 16 + d) :: pr.1, pr.2))
    | _, _, _, _ => none
  | '\\' :: e :: r =>
    match
      (if e = '"' then some '"'
       else if e = '\\' then some '\\'
       else if e = '/' then some '/'
       else if e = 'b' then some '\x08'
       else if e = 'f' then some '\x0c'
       else if e = 'n' then some '\n'
       else if e = 'r' then some '\r'
       else if e = 't' then some '\t'
       else none) with
    | some c => (jpStrBody r).map (fun pr => (c :: pr.1, pr.2))
    | none => none
  | c :: r =>
    if c.toNat < 32 then none
    else (jpStrBody r).map (fun pr => (c :: pr.1, pr.2))

/-- Reads the optional fraction and exponent of a numeric token. -/
def jpNumTail (tok : Str) (s : Str) : Option (Str × Str) :=
  let (tok1, s1) :=
    match s with
    | '.' :: r =>
      match r.takeWhile Char.isDigit with
      | [] => ([], s)
      | ds => (tok ++ '.' :: ds, r.dropWhile Char.isDigit)
    | _ => ([], s)
  let (tok2, s2) := if tok1.isEmpty then (tok, s) else (tok1, s1)
  match s2 with
  | 'e' :: r => jpNumExp tok2 'e' r
  | 'E' :: r => jpNumExp tok2 'E' r
  | _ => some (tok2, s2)
where
  jpNumExp (tok : Str) (e : Char) (r : Str) : Option (Str × Str) :=
    let (sgn, r1) :=
      match r with
      | '+' :: r' => (['+'], r')
      | '-' :: r' => (['-'], r')
      | _ => (([] : Str), r)
    match r1.takeWhile Char.isDigit with
    | [] => none
    | ds => some (tok ++ e :: sgn ++ ds, r1.dropWhile Char.isDigit)

/-- Reads a JSON numeric token (`-? int frac? exp?`). -/
def jpNumTok (s : Str) : Option (Str × Str) :=
  let (neg, s1) :=
    match s with
    | '-' :: r => ((['-'] : Str), r)
    | _ => (([] : Str), s)
  match s1 with
  | '0' :: r => jpNumTail (neg ++ ['0']) r
  | c :: r =>
    if c.isDigit then
      jpNumTail (neg ++ c :: r.takeWhile Char.isDigit) (r.dropWhile Char.isDigit)
    else none
  | [] => none

mutual

/-- One JSON value (fuelled recursive descent; the wrappers pass ample
fuel, so the fuel never runs out on the inputs considered). -/
def jpValue : Nat → Str → Option (Jv × Str)
  | 0, _ => none
  | fuel + 1, s0 =>
    match skipWs s0 with
    | [] => none
    | '"' :: r => (jpStrBody r).map (fun pr => (Jv.jstr pr.1, pr.2))
    | '\x7b' :: r =>
      (match skipWs r with
       | '\x7d' :: r2 => some (Jv.jobj [], r2)
       | _ => (jpMembers fuel r).map (fun pr => (Jv.jobj pr.1, pr.2)))
    | '[' :: r =>
      (match skipWs r with
       | ']' :: r2 => some (Jv.jarr [], r2)
       | _ => (jpElems fuel r).map (fun pr => (Jv.jarr pr.1, pr.2)))
    | 't' :: r => (dropLit "rue".data r).map (fun r2 => (Jv.jbool true, r2))
    | 'f' :: r => (dropLit "alse".data r).map (fun r2 => (Jv.jbool false, r2))
    | 'n' :: r => (dropLit "ull".data r).map (fun r2 => (Jv.jnull, r2))
    | s => (jpNumTok s).map (fun pr => (Jv.jnum pr.1, pr.2))

/-- Comma-separated JSON array elements up to the closing bracket. -/
def jpElems : Nat → Str → Option (List Jv × Str)
  | 0, _ => none
  | fuel + 1, s =>
    match jpValue fuel s with
    | none => none
    | some (v, r) =>
      match skipWs r with
      | ',' :: r2 =>
        (jpElems fuel r2).map (fun pr => (v :: pr.1, pr.2))
      | ']' :: r2 => some ([v], r2)
      | _ => none

/-- Comma-separated JSON object members up to the closing brace. -/
def jpMembers : Nat → Str → Option (List (Str × Jv) × Str)
  | 0, _ => none
  | fuel + 1, s =>
    match skipWs s with
    | '"' :: r =>
      (match jpStrBody r with
       | none => none
       | some (k, r1) =>
         match skipWs r1 with
         | ':' :: r2 =>
           (match jpValue fuel r2 with
            | none => none
            | some (v, r3) =>
              match skipWs r3 with
              | ',' :: r4 =>
                (jpMembers fuel r4).map (fun pr => ((k, v) :: pr.1, pr.2))
              | '\x7d' :: r4 => some ([(k, v)], r4)
              | _ => none)
         | _ => none)
    | _ => none

end

/-- The host's `JSON.parse`: one value, then only trailing whitespace. -/
def jsonParse (s : Str) : Option Jv :=
  match jpValue (2 * s.length + 2) s with
  | some (v, rest) => if (skipWs rest).isEmpty then some v else none
  | none => none

/- ### Tag-based tool-call parser (`anthropic-tool-parser.ts`)

`parseAnthropicToolCalls` is embedded below piece by piece, in the order
of the source: fabricated-result removal, `<function_calls>` unwrapping,
the invoke-style scan, the direct-tag scan with its overlap filter, the
sort by start offset, and the emission loop with parameter parsing and
alias mapping. -/

/-- One recorded tool-call candidate (`{name, params, start, end}` in
the source; `end` is a reserved word here, so the field is `stop`). -/
structure ToolCall where
  name : Str
  params : Str
  start : Nat
  stop : Nat
  deriving DecidableEq

/-- A structured invocation (`{name, args}`). -/
structure FunctionCall where
  name : Str
  args : Jv

/-- Canonical response part: text or invocation. -/
inductive Part where
  | text (t : Str) : Part
  | functionCall (fc : FunctionCall) : Part

def openResultTag : Str := "<function_result>".data
def closeResultTag : Str := "</function_result>".data
def openCallsTag : Str := "<function_calls>".data
def closeCallsTag : Str := "</function_calls>".data

/-- One step of the global replacement
`text.replace(/<function_result>[\s\S]*?<\/function_result>/g, '')`:
find the leftmost opening tag, the nearest closing tag after it, drop
the whole block, continue after it.  Fuel decreases on every step; the
wrapper passes `length + 1`, which the scan can never exhaust. -/
def removeFabricatedGo : Nat → Str → Str
  | 0, s => s
  | fuel + 1, s =>
    if openResultTag.isPrefixOf s then
      match splitFirst closeResultTag (s.drop openResultTag.length) with
      | some (_, post) => removeFabricatedGo fuel post
      | none => s
    else
      match s with
      | [] => []
      | c :: cs => c :: removeFabricatedGo fuel cs

/-- Removal of hallucinated `<function_result>` blocks (source line
`text = text.replace(/<function_result>[\s\S]*?<\/function_result>/g, '')`). -/
def removeFabricated (s : Str) : Str := removeFabricatedGo (s.length + 1) s

/-- Collects the bodies of `<function_calls>...</function_calls>`
blocks, leftmost first (the `functionCallsRegex` loop). -/
def collectCallsBlocksGo : Nat → Str → List Str
  | 0, _ => []
  | fuel + 1, s =>
    match splitFirst openCallsTag s with
    | none => []
    | some (_, afterOpen) =>
      match splitFirst closeCallsTag afterOpen with
      | none => []
      | some (body, post) => body :: collectCallsBlocksGo fuel post

def collectCallsBlocks (s : Str) : List Str :=
  collectCallsBlocksGo (s.length + 1) s

/-- Non-global `processedText.replace(/<function_calls>[\s\S]*?<\/function_calls>/, block)`:
replace only the first wrapper block with `repl`.  (The source passes
`block` as a plain replacement string; `$`-substitution, which the host
would perform on it, is not modelled — no block in any considered input
contains a `$`.) -/
def replaceFirstCallsBlock (repl s : Str) : Str :=
  match splitFirst openCallsTag s with
  | none => s
  | some (pre, afterOpen) =>
    match splitFirst closeCallsTag afterOpen with
    | none => s
    | some (_, post) => pre ++ repl ++ post

/-- The `<function_calls>` unwrapping step (source lines collecting
`functionCallBlocks` and splicing each back over a wrapper). -/
def unwrapCallsBlocks (s : Str) : Str :=
  let blocks := collectCallsBlocks s
  if blocks.isEmpty then s
  else blocks.foldl (fun t b => replaceFirstCallsBlock b t) s

def invokeOpenLit : Str := "<invoke".data
def nameAttrLit : Str := "name=\"".data
def nameCloseLit : Str := "\">".data
def invokeCloseLit : Str := "</invoke>".data

/-- Attempt to match
`/<invoke\s+name="([^"]+)">([\s\S]*?)<\/invoke>/` at the head of `s`.
Returns the captured name and parameter block, the matched length, and
the input after the match.  Greedy `\s+` and `[^"]+` runs followed by a
literal are equivalent to maximal runs because the literal's first
character is excluded from the run's class. -/
def matchInvokeHere (s : Str) : Option (Str × Str × Nat × Str) :=
  match dropLit invokeOpenLit s with
  | none => none
  | some s1 =>
    if (s1.takeWhile isJsSpace).isEmpty then none
    else
      match dropLit nameAttrLit (s1.dropWhile isJsSpace) with
      | none => none
      | some s3 =>
        let nm := s3.takeWhile (fun c => c ≠ '"')
        if nm.isEmpty then none
        else
          match dropLit nameCloseLit (s3.dropWhile (fun c => c ≠ '"')) with
          | none => none
          | some s5 =>
            match splitFirst invokeCloseLit s5 with
            | none => none
            | some (ps, rest) => some (nm, ps, s.length - rest.length, rest)

/-- The invoke-style scan loop (`while ((match = invokeRegex.exec(text)))`):
leftmost match, then continue from `lastIndex`; on failure at a
position, advance one character. -/
def goInvokes : Nat → Str → Nat → List ToolCall
  | 0, _, _ => []
  | fuel + 1, s, pos =>
    match matchInvokeHere s with
    | some (nm, ps, len, rest) =>
      ⟨nm, ps, pos, pos + len⟩ :: goInvokes fuel rest (pos + len)
    | none =>
      match s with
      | [] => []
      | _ :: cs => goInvokes fuel cs (pos + 1)

def findInvokes (s : Str) (pos : Nat) : List ToolCall :=
  goInvokes (s.length + 1) s pos

/-- First character of a direct-tag name (`[a-zA-Z_]`). -/
def isIdentStart (c : Char) : Bool :=
  ('a' ≤ c && c ≤ 'z') || ('A' ≤ c && c ≤ 'Z') || c = '_'

/-- Subsequent characters of a direct-tag name (`[a-zA-Z0-9_]`). -/
def isIdentCont (c : Char) : Bool := isIdentStart c || ('0' ≤ c && c ≤ '9')

/-- Attempt to match `/<([a-zA-Z_][a-zA-Z0-9_]*)>([\s\S]*?)<\/\1>/` at
the head of `s`. -/
def matchDirectHere (s : Str) : Option (Str × Str × Nat × Str) :=
  match s with
  | c0 :: c :: r =>
    if c0 = '<' ∧ isIdentStart c = true then
      let nm := c :: r.takeWhile isIdentCont
      match dropLit ['>'] (r.dropWhile isIdentCont) with
      | none => none
      | some s3 =>
        match splitFirst ('<' :: '/' :: nm ++ ['>']) s3 with
        | none => none
        | some (ps, rest) => some (nm, ps, (c0 :: c :: r).length - rest.length, rest)
    else none
  | _ => none

/-- The direct-tag scan loop (`while ((match = directToolRegex.exec(text)))`). -/
def goDirects : Nat → Str → Nat → List ToolCall
  | 0, _, _ => []
  | fuel + 1, s, pos =>
    match matchDirectHere s with
    | some (nm, ps, len, rest) =>
      ⟨nm, ps, pos, pos + len⟩ :: goDirects fuel rest (pos + len)
    | none =>
      match s with
      | [] => []
      | _ :: cs => goDirects fuel cs (pos + 1)

def findDirects (s : Str) (pos : Nat) : List ToolCall :=
  goDirects (s.length + 1) s pos

/-- The overlap test applied to a direct-tag match against one already
accepted candidate, exactly as written in the source:
`(matchStart >= tc.start && matchStart < tc.end) || (matchEnd > tc.start && matchEnd <= tc.end)`. -/
def overlapsSpan (mStart mEnd : Nat) (tc : ToolCall) : Bool :=
  (decide (tc.start ≤ mStart) && decide (mStart < tc.stop)) ||
    (decide (tc.start < mEnd) && decide (mEnd ≤ tc.stop))

/-- The direct-tag acceptance loop: each match is pushed onto the shared
`toolCalls` array unless it overlaps one already there (the array starts
out holding the invoke-style matches). -/
def acceptDirects : List ToolCall → List ToolCall → List ToolCall
  | [], acc => acc
  | m :: rest, acc =>
    if acc.any (overlapsSpan m.start m.stop) then acceptDirects rest acc
    else acceptDirects rest (acc ++ [m])

/-- All accepted candidates, before sorting: the invoke-style matches
and the surviving direct-tag matches (source lines 62-99). -/
def collectToolCalls (s : Str) : List ToolCall :=
  acceptDirects (findDirects s 0) (findInvokes s 0)

/-- Stable insertion of a candidate into a start-sorted list (a later
element with an equal key stays behind earlier ones, as the host's
stable `Array.prototype.sort` guarantees). -/
def insertByStart (x : ToolCall) : List ToolCall → List ToolCall
  | [] => [x]
  | y :: ys => if x.start ≤ y.start then x :: y :: ys else y :: insertByStart x ys

/-- `toolCalls.sort((a, b) => a.start - b.start)`. -/
def sortByStart : List ToolCall → List ToolCall
  | [] => []
  | x :: xs => insertByStart x (sortByStart xs)

def paramOpenLit : Str := "<parameter".data
def paramCloseLit : Str := "</parameter>".data

/-- Attempt to match
`/<parameter\s+name="([^"]+)">([^<]*)<\/parameter>/` at the head of
`s`; returns `((name, rawValue), rest)`. -/
def matchNamedParamHere (s : Str) : Option ((Str × Str) × Str) :=
  match dropLit paramOpenLit s with
  | none => none
  | some s1 =>
    if (s1.takeWhile isJsSpace).isEmpty then none
    else
      match dropLit nameAttrLit (s1.dropWhile isJsSpace) with
      | none => none
      | some s3 =>
        let nm := s3.takeWhile (fun c => c ≠ '"')
        if nm.isEmpty then none
        else
          match dropLit nameCloseLit (s3.dropWhile (fun c => c ≠ '"')) with
          | none => none
          | some s5 =>
            match dropLit paramCloseLit (s5.dropWhile (fun c => c ≠ '<')) with
            | none => none
            | some rest => some ((nm, s5.takeWhile (fun c => c ≠ '<')), rest)

/-- The `paramRegex` loop over a parameter block. -/
def goNamedParams : Nat → Str → List (Str × Str)
  | 0, _ => []
  | fuel + 1, s =>
    match matchNamedParamHere s with
    | some (kv, rest) => kv :: goNamedParams fuel rest
    | none =>
      match s with
      | [] => []
      | _ :: cs => goNamedParams fuel cs

/-- Attempt to match `/<(\w+)>([^<]*)<\/\1>/` at the head of `s`. -/
def matchDirectParamHere (s : Str) : Option ((Str × Str) × Str) :=
  match s with
  | '<' :: r =>
    let nm := r.takeWhile isIdentCont
    if nm.isEmpty then none
    else
      match dropLit ['>'] (r.dropWhile isIdentCont) with
      | none => none
      | some s3 =>
        match dropLit ('<' :: '/' :: nm ++ ['>']) (s3.dropWhile (fun c => c ≠ '<')) with
        | none => none
        | some rest => some ((nm, s3.takeWhile (fun c => c ≠ '<')), rest)
  | _ => none

/-- The `directParamRegex` loop over a parameter block. -/
def goDirectParams : Nat → Str → List (Str × Str)
  | 0, _ => []
  | fuel + 1, s =>
    match matchDirectParamHere s with
    | some (kv, rest) => kv :: goDirectParams fuel rest
    | none =>
      match s with
      | [] => []
      | _ :: cs => goDirectParams fuel cs

/-- Trim the raw value, then attempt `JSON.parse` when it looks
array- or object-shaped, else keep it as a literal string — the body of
both parameter-reading loops. -/
def coerceParamValue (v : Str) : Jv :=
  let t := trimStr v
  if t.head? = some '[' || t.head? = some '\x7b' then
    match jsonParse t with
    | some j => j
    | none => Jv.jstr t
  else Jv.jstr t

/-- JS-object membership test on the argument record. -/
def argsHas (a : List (Str × Jv)) (k : Str) : Bool := a.any (fun p => p.1 = k)

def argsGet? (a : List (Str × Jv)) (k : Str) : Option Jv :=
  (a.find? (fun p => p.1 = k)).map Prod.snd

/-- JS-object assignment: overwrite in place, else append. -/
def argsSet (a : List (Str × Jv)) (k : Str) (v : Jv) : List (Str × Jv) :=
  if argsHas a k then a.map (fun p => if p.1 = k then (k, v) else p)
  else a ++ [(k, v)]

/-- JS `delete` on the argument record. -/
def argsDel (a : List (Str × Jv)) (k : Str) : List (Str × Jv) :=
  a.filter (fun p => p.1 ≠ k)

/-- The shared shape of every alias rule in the source:
`if (old in args && !(new in args)) { args[new] = args[old]; delete args[old]; }`. -/
def renameArg (a : List (Str × Jv)) (oldK newK : Str) : List (Str × Jv) :=
  if argsHas a oldK && !argsHas a newK then
    match argsGet? a oldK with
    | some v => argsDel (argsSet a newK v) oldK
    | none => a
  else a

/-- The fixed per-tool parameter-alias table (source lines 172-214). -/
def mapAliases (toolName : Str) (a : List (Str × Jv)) : List (Str × Jv) :=
  let m := a
  let m := if toolName = "read_file".data then
      renameArg m "path".data "absolute_path".data
    else m
  let m := if toolName = "run_shell_command".data then
      renameArg m "cmd".data "command".data
    else m
  let m := if toolName = "ls".data then
      (if argsHas m "directory".data && !argsHas m "path".data then
        renameArg m "directory".data "path".data
      else if argsHas m "dir".data && !argsHas m "path".data then
        renameArg m "dir".data "path".data
      else m)
    else m
  let m := if toolName = "write_file".data then
      renameArg (renameArg m "content".data "contents".data)
        "path".data "absolute_path".data
    else m
  m

/-- Parameter-block parsing: named-parameter tags if any, else direct
child tags; each value coerced by `coerceParamValue`. -/
def parseParamBlock (ps : Str) : List (Str × Jv) :=
  let named := goNamedParams (ps.length + 1) ps
  if named.isEmpty then
    (goDirectParams (ps.length + 1) ps).foldl
      (fun a kv => argsSet a kv.1 (coerceParamValue kv.2)) []
  else
    named.foldl (fun a kv => argsSet a kv.1 (coerceParamValue kv.2)) []

/-- The invocation built for one accepted candidate. -/
def mkFunctionCall (tc : ToolCall) : FunctionCall :=
  ⟨tc.name, Jv.jobj (mapAliases tc.name (parseParamBlock tc.params))⟩

/-- The emission loop over the sorted candidates (source lines
109-232): the untouched text since the previous candidate's end is
trimmed and emitted when non-empty, each candidate becomes an
invocation, and trailing text is emitted last. -/
def emitLoop (text : Str) : List ToolCall → Nat → List Str × List FunctionCall
  | [], lastIdx =>
    if lastIdx < text.length then
      (let trail := trimStr (text.drop lastIdx)
       if trail.isEmpty then ([], []) else ([trail], []))
    else ([], [])
  | tc :: rest, lastIdx =>
    let gap : List Str :=
      if lastIdx < tc.start then
        (let g := trimStr (subStr text lastIdx tc.start)
         if g.isEmpty then [] else [g])
      else []
    let r := emitLoop text rest tc.stop
    (gap ++ r.1, mkFunctionCall tc :: r.2)

/-- Result shape of `parseAnthropicToolCalls`. -/
structure ParsedToolCalls where
  textParts : List Str
  functionCalls : List FunctionCall

/-- The whole of `parseAnthropicToolCalls`.  When no call is found the
entire (pre-processed) text is returned as the single text part. -/
def parseAnthropicToolCalls (input : Str) : ParsedToolCalls :=
  let t := unwrapCallsBlocks (removeFabricated input)
  let r := emitLoop t (sortByStart (collectToolCalls t)) 0
  if r.2.isEmpty then ⟨[t], []⟩ else ⟨r.1, r.2⟩

/-- `convertAnthropicResponseToParts`: all text parts are joined with
newlines into one leading text part, followed by every invocation. -/
def convertAnthropicResponseToParts (input : Str) : List Part :=
  let r := parseAnthropicToolCalls input
  let combined := trimStr (joinNl r.textParts)
  (if combined.isEmpty then [] else [Part.text combined]) ++
    r.functionCalls.map Part.functionCall

/- ### Provider adapter, synchronous path (`providers/anthropic.ts`,
`generateContent` lines 102-169)

Only the response-shaping half of `generateContent` is embedded: the
request building and the network call in front of it do not influence
any claim.  `usageMetadata.totalTokenCount` is
`data.usage?.input_tokens + data.usage?.output_tokens` in the source;
a JS addition with an absent operand yields `NaN`, modelled as `none`. -/

/-- One Anthropic content block as discriminated by the source
(`contentBlock.type === 'text'` / `'tool_use'`). -/
inductive ContentBlock where
  | textBlock (t : Str) : ContentBlock
  | toolUse (name : Str) (input : Option Jv) : ContentBlock
  | otherBlock : ContentBlock

/-- `data.content`: either an array of blocks, or some non-array value
of which the fallback path reads `data.content?.[0]?.text`, or absent. -/
inductive RawContent where
  | blocks (bs : List ContentBlock) : RawContent
  | nonArray (firstText : Option Str) : RawContent
  | absent : RawContent

structure AnthUsage where
  inputTokens : Option Int
  outputTokens : Option Int

/-- The fields of the decoded response body that the shaping code
reads. -/
structure AnthData where
  content : RawContent
  stopReason : Option Str
  usage : Option AnthUsage

structure UsageMeta where
  promptTokenCount : Option Int
  candidatesTokenCount : Option Int
  totalTokenCount : Option Int

structure Candidate where
  parts : List Part
  finishReason : Option Str

structure GenResult where
  text : Str
  candidates : List Candidate
  usageMetadata : UsageMeta

/-- The structured-content loop of `generateContent` (lines 106-121):
returns accumulated text, parts and function calls. -/
def foldBlocks : List ContentBlock → Str × List Part × List FunctionCall
  | [] => ([], [], [])
  | b :: bs =>
    let r := foldBlocks bs
    match b with
    | .textBlock t => (t ++ r.1, Part.text t :: r.2.1, r.2.2)
    | .toolUse nm input =>
      let fc : FunctionCall := ⟨nm, input.getD (Jv.jobj [])⟩
      (r.1, Part.functionCall fc :: r.2.1, fc :: r.2.2)
    | .otherBlock => r

/-- Text, parts and function calls of the synchronous response (lines
102-153), including the text-fallback path through the parser and the
final `if (parts.length === 0 && text)` repair. -/
def buildSyncContent (data : AnthData) : Str × List Part × List FunctionCall :=
  let r :=
    match data.content with
    | .blocks bs => foldBlocks bs
    | .nonArray ft =>
      let text := ft.getD []
      let parsed := parseAnthropicToolCalls text
      let parts :=
        (parsed.functionCalls.map Part.functionCall) ++
          (if ¬ text.isEmpty ∧ parsed.functionCalls.isEmpty then [Part.text text] else [])
      (text, parts, parsed.functionCalls)
    | .absent =>
      let text : Str := []
      let parsed := parseAnthropicToolCalls text
      let parts :=
        (parsed.functionCalls.map Part.functionCall) ++
          (if ¬ text.isEmpty ∧ parsed.functionCalls.isEmpty then [Part.text text] else [])
      (text, parts, parsed.functionCalls)
  if r.2.1.isEmpty ∧ ¬ r.1.isEmpty then (r.1, [Part.text r.1], r.2.2) else r

/-- The usage-metadata record of the synchronous response (lines
164-168); an addition with an absent operand is `NaN` in the host,
modelled as `none`. -/
def buildUsageMeta (u : Option AnthUsage) : UsageMeta :=
  { promptTokenCount := u.bind (·.inputTokens)
    candidatesTokenCount := u.bind (·.outputTokens)
    totalTokenCount :=
      match u.bind (·.inputTokens), u.bind (·.outputTokens) with
      | some i, some o => some (i + o)
      | _, _ => none }

/-- The value returned by `generateContent` (lines 155-169). -/
def buildSyncResult (data : AnthData) : GenResult :=
  let r := buildSyncContent data
  { text := r.1
    candidates :=
      [{ parts := r.2.1
         finishReason :=
           if data.stopReason = some "end_turn".data then some "STOP".data
           else data.stopReason }]
    usageMetadata := buildUsageMeta data.usage }

/- ### Streaming reconstructor (`generateContentStream` lines 241-333)

The SSE framing (`data: ` lines, `JSON.parse` of each frame) is not
re-modelled: the reconstructor is embedded from the point where a
decoded event object is dispatched on its `type` discriminator, which
is the granularity at which the claims are stated. -/

/-- A decoded stream event: its `type` and the fields the dispatcher
reads (`delta.text`, `delta.partial_json`, `content_block.type/.name`,
`usage`). -/
structure SseEvent where
  type : Str
  deltaText : Option Str := none
  deltaJson : Option Str := none
  contentBlock : Option (Str × Str) := none
  usage : Option (Int × Int) := none

/-- The `currentToolCall` accumulator. -/
structure CurrentTool where
  name : Str
  input : Str

/-- One yielded chunk (the source always yields one candidate; its
parts, the top-level `text`, the finish reason and optional usage are
retained). -/
structure StreamChunk where
  text : Str
  parts : List Part
  finishReason : Option Str
  usage : Option UsageMeta

/-- One step of the event dispatcher: the if/else-if chain of lines
261-327, in source order.  Returns the new accumulator and the chunks
yielded by this event. -/
def stepStream (cur : Option CurrentTool) (e : SseEvent) :
    Option CurrentTool × List StreamChunk :=
  if e.type = "content_block_delta".data ∧ e.deltaText.isSome then
    (cur,
      [{ text := e.deltaText.getD []
         parts := [Part.text (e.deltaText.getD [])]
         finishReason := none
         usage := none }])
  else if e.type = "content_block_start".data ∧
      (e.contentBlock.map Prod.fst) = some "tool_use".data then
    (e.contentBlock.map (fun cb => ⟨cb.2, []⟩), [])
  else if e.type = "content_block_delta".data ∧ e.deltaJson.isSome then
    (match cur with
     | some ct => some ⟨ct.name, ct.input ++ e.deltaJson.getD []⟩
     | none => none, [])
  else if e.type = "content_block_stop".data ∧ cur.isSome then
    (none,
      match cur with
      | some ct =>
        [{ text := []
           parts := [Part.functionCall ⟨ct.name, (jsonParse ct.input).getD (Jv.jobj [])⟩]
           finishReason := none
           usage := none }]
      | none => [])
  else if e.type = "message_stop".data then
    (cur,
      [{ text := []
         parts := [Part.text []]
         finishReason := some "STOP".data
         usage := e.usage.map (fun u =>
           { promptTokenCount := some u.1
             candidatesTokenCount := some u.2
             totalTokenCount := some (u.1 + u.2) }) }])
  else (cur, [])

/-- The whole event loop: dispatch each event in order, starting with
an empty accumulator (`currentToolCall = null`). -/
def runStream (cur : Option CurrentTool) : List SseEvent → List StreamChunk
  | [] => []
  | e :: rest =>
    let r := stepStream cur e
    r.2 ++ runStream r.1 rest

/-- Wire-event constructors used in the claims. -/
def evToolStart (nm : Str) : SseEvent :=
  { type := "content_block_start".data, contentBlock := some ("tool_use".data, nm) }

def evToolDelta (s : Str) : SseEvent :=
  { type := "content_block_delta".data, deltaJson := some s }

def evBlockStop : SseEvent := { type := "content_block_stop".data }

def evTextDelta (s : Str) : SseEvent :=
  { type := "content_block_delta".data, deltaText := some s }

def evMessageStop (u : Option (Int × Int)) : SseEvent :=
  { type := "message_stop".data, usage := u }

/-- Every invocation fragment surfaced by a chunk list. -/
def invocationFragments (cs : List StreamChunk) : List FunctionCall :=
  cs.flatMap (fun c => c.parts.filterMap (fun p =>
    match p with
    | Part.functionCall fc => some fc
    | Part.text _ => none))

/- ### Provider router (`providers/factory.ts`)

`detectProvider` is a pure function of the model identifier and the
environment.  An environment variable is modelled as `Option Str`;
JS truthiness collapses `undefined` and `''`, captured by `truthy`.
Throwing is modelled by `Except`; the configuration error records the
variable names spelled out in the thrown message. -/

structure ProviderEnv where
  anthropicAuthToken : Option Str
  anthropicBaseUrl : Option Str
  anthropicModel : Option Str

/-- JS truthiness of an optional string. -/
def truthy : Option Str → Bool
  | none => false
  | some s => ¬ s.isEmpty

/-- JS `a || b` for an optional string with a string default. -/
def jsOrStr (o : Option Str) (dflt : Str) : Str :=
  match o with
  | some s => if s.isEmpty then dflt else s
  | none => dflt

/-- The provider object built by `new AnthropicProvider()` (fields set
by the constructor from the environment). -/
structure AnthropicProviderCfg where
  authToken : Str
  baseUrl : Str
  model : Str
  deriving DecidableEq

/-- The adapter wrapper returned through
`createCustomAnthropicProvider`. -/
structure ContentGeneratorHandle where
  provider : AnthropicProviderCfg
  deriving DecidableEq

inductive FactoryError where
  /-- The configuration error thrown by `detectProvider`; the thrown
  message names the model and tells the user to set the listed
  variables. -/
  | missingConfig (modelName : Str) (namedVars : List Str) : FactoryError
  /-- The `ANTHROPIC_AUTH_TOKEN is required` error of the
  `AnthropicProvider` constructor. -/
  | tokenRequired : FactoryError
  deriving DecidableEq

/-- The three environment-variable names spelled out in the thrown
configuration message. -/
def configMsgVars : List Str :=
  ["ANTHROPIC_AUTH_TOKEN".data, "ANTHROPIC_BASE_URL".data, "ANTHROPIC_MODEL".data]

/-- The `AnthropicProvider` constructor called with no arguments. -/
def mkAnthropicProvider (env : ProviderEnv) : Except FactoryError AnthropicProviderCfg :=
  let tok := jsOrStr env.anthropicAuthToken []
  if tok.isEmpty then .error .tokenRequired
  else
    .ok
      { authToken := tok
        baseUrl := jsOrStr env.anthropicBaseUrl "https://api.anthropic.com".data
        model := jsOrStr env.anthropicModel "claude-3-opus-20240229".data }

/-- `detectProvider(modelName)`: `none` in the result means "use the
native Gemini path". -/
def detectProvider (env : ProviderEnv) (modelName : Option Str) :
    Except FactoryError (Option ContentGeneratorHandle) :=
  match modelName with
  | none => .ok none
  | some m =>
    if m.isEmpty then .ok none
    else
      let ml := lowerStr m
      if hasSub "claude".data ml || hasSub "anthropic".data ml then
        if ¬ (truthy env.anthropicAuthToken) ∨ ¬ (truthy env.anthropicBaseUrl) then
          .error (.missingConfig m configMsgVars)
        else
          match mkAnthropicProvider env with
          | .ok p => .ok (some ⟨p⟩)
          | .error e => .error e
      else .ok none

/- ### External process orchestrator (`tools/aider-service.ts`)

The service is embedded as an explicit state record and one transition
function per event the source reacts to.  Writes to the subprocess's
stdin are not modelled; settlements (promise resolutions/rejections)
are recorded in an append-only log, so "settled exactly once" and "who
settled whom" are directly observable. -/

structure AiderCommand where
  id : Nat
  instruction : Str
  files : List Str
  deriving DecidableEq

inductive AiderError where
  | processTerminated : AiderError
  deriving DecidableEq

inductive Outcome where
  | resolved (result : Str) : Outcome
  | rejected (e : AiderError) : Outcome
  deriving DecidableEq

structure ServiceState where
  processRunning : Bool
  commandQueue : List AiderCommand
  currentCommand : Option AiderCommand
  outputBuffer : Str
  settlements : List (Nat × Outcome)
  deriving DecidableEq

/-- `cleanOutput`: strip ANSI colour sequences
(`/\x1b\[[0-9;]*m/g`). -/
def stripAnsiGo : Nat → Str → Str
  | 0, s => s
  | fuel + 1, s =>
    match s with
    | [] => []
    | '\x1b' :: '[' :: r =>
      match dropLit ['m'] (r.dropWhile (fun c => c.isDigit || c = ';')) with
      | some rest => stripAnsiGo fuel rest
      | none => '\x1b' :: stripAnsiGo fuel ('[' :: r)
    | c :: cs => c :: stripAnsiGo fuel cs

def stripAnsi (s : Str) : Str := stripAnsiGo (s.length + 1) s

/-- `cleanOutput`: the two line-anchored replacements
(`/^> /gm` and `/^Tokens:.*$/gm`) applied linewise, then `trim()`. -/
def cleanOutput (s : Str) : Str :=
  let lines := splitLines (stripAnsi s)
  let lines := lines.map (fun l =>
    if ("> ".data).isPrefixOf l then l.drop 2 else l)
  let lines := lines.map (fun l =>
    if ("Tokens:".data).isPrefixOf l then [] else l)
  trimStr (joinLines lines)

/-- The completion-marker test of `handleOutput` (line 216-218). -/
def hasCompletionMarker (buf : Str) : Bool :=
  hasSub "> ".data buf || hasSub "Tokens:".data buf ||
    hasSub "Applied edit to".data buf

/-- `processNextCommand` (lines 183-207) without its `setTimeout` arm:
dequeue when idle and a command is queued.  (The stdin writes of the
files and the instruction are not modelled.) -/
def processNextCommand (s : ServiceState) : ServiceState :=
  if s.currentCommand.isSome ∨ s.commandQueue.isEmpty then s
  else
    { s with
      currentCommand := s.commandQueue.head?
      commandQueue := s.commandQueue.tail
      outputBuffer := [] }

/-- `completeCurrentCommand` (lines 226-238): resolve the current
command with the cleaned buffer, clear it, and dispatch the next. -/
def completeCurrentCommand (s : ServiceState) : ServiceState :=
  match s.currentCommand with
  | none => s
  | some c =>
    processNextCommand
      { s with
        settlements := s.settlements ++ [(c.id, Outcome.resolved (cleanOutput s.outputBuffer))]
        currentCommand := none
        outputBuffer := [] }

/-- `execute` (lines 118-135) with the service already started: enqueue
and trigger dispatch. -/
def executeCommand (s : ServiceState) (c : AiderCommand) : ServiceState :=
  processNextCommand { s with commandQueue := s.commandQueue ++ [c] }

/-- `handleOutput` (lines 212-221). -/
def handleOutput (s : ServiceState) (data : Str) : ServiceState :=
  let s := { s with outputBuffer := s.outputBuffer ++ data }
  if hasCompletionMarker s.outputBuffer then completeCurrentCommand s else s

/-- The `setTimeout` callback armed in `processNextCommand` (lines
202-206), exactly as written: the guard compares
`this.currentCommand?.id` with `this.currentCommand?.id` — itself — so
it passes whenever the timer fires, regardless of which command the
timer was armed for. -/
def timeoutFire (s : ServiceState) : ServiceState :=
  if s.currentCommand.map AiderCommand.id = s.currentCommand.map AiderCommand.id then
    completeCurrentCommand s
  else s

/-- `rejectAllPending` (lines 274-284): reject the in-flight command
first, then drain the queue in order, rejecting each. -/
def rejectAllPending (e : AiderError) (s : ServiceState) : ServiceState :=
  let s1 :=
    match s.currentCommand with
    | some c =>
      { s with
        settlements := s.settlements ++ [(c.id, Outcome.rejected e)]
        currentCommand := none }
    | none => s
  { s1 with
    settlements := s1.settlements ++ s1.commandQueue.map (fun c => (c.id, Outcome.rejected e))
    commandQueue := [] }

/-- The `close` handler installed in `start` (lines 79-83). -/
def onProcessClose (s : ServiceState) : ServiceState :=
  rejectAllPending AiderError.processTerminated { s with processRunning := false }

/- ### Module-level singleton (`getAiderService`, lines 294-310) -/

structure AiderConfig where
  targetDir : Str
  deriving DecidableEq

/-- The service handle: the source binds the `Config` passed to the
constructor for the life of the instance (it is what `start` reads the
working directory from). -/
structure AiderServiceHandle where
  config : AiderConfig
  deriving DecidableEq

/-- `getAiderService(config)` acting on the module-level `aiderService`
variable: create and store on first call, return the stored instance
ever after.  (The `process.on('exit', ...)` hook only tears down.) -/
def getAiderService (config : AiderConfig) (stored : Option AiderServiceHandle) :
    AiderServiceHandle × Option AiderServiceHandle :=
  match stored with
  | none =>
    let s : AiderServiceHandle := ⟨config⟩
    (s, some s)
  | some s => (s, some s)

/- ### Generic lemmas about the scanning primitives -/

theorem dropLit_some {pat s r : Str} (h : dropLit pat s = some r) : s = pat ++ r := by
  rw [dropLit] at h
  split at h
  case isTrue hp =>
    injection h with h
    obtain ⟨t, ht⟩ := List.isPrefixOf_iff_prefix.mp hp
    rw [← ht, List.drop_left] at h
    rw [← ht, ← h]
  case isFalse => exact absurd h (by simp)

theorem dropLit_self (pat r : Str) : dropLit pat (pat ++ r) = some r := by
  rw [dropLit, if_pos, List.drop_left]
  exact List.isPrefixOf_iff_prefix.mpr ⟨r, rfl⟩

theorem length_dropWhile_le (p : Char → Bool) (l : Str) :
    (l.dropWhile p).length ≤ l.length :=
  (List.dropWhile_sublist p).length_le

theorem takeWhile_chunk {p : Char → Bool} {a : Str} {b : Char} {t : Str}
    (ha : ∀ c ∈ a, p c = true) (hb : p b = false) :
    (a ++ b :: t).takeWhile p = a ∧ (a ++ b :: t).dropWhile p = b :: t := by
  induction a with
  | nil => simp [List.takeWhile, List.dropWhile, hb]
  | cons c cs ih =>
    have hc : p c = true := ha c (by simp)
    have ih' := ih (fun x hx => ha x (by simp [hx]))
    constructor
    · rw [List.cons_append, List.takeWhile_cons, if_pos (by simp [hc]), ih'.1]
    · rw [List.cons_append, List.dropWhile_cons, if_pos (by simp [hc]), ih'.2]

theorem dropWhile_eq_self_of_head {p : Char → Bool} {l : Str}
    (h : ∀ c, l.head? = some c → p c = false) : l.dropWhile p = l := by
  cases l with
  | nil => rfl
  | cons c cs =>
    rw [List.dropWhile_cons, if_neg]
    simp [h c rfl]

theorem trimStr_reverse_head {s : Str} {c : Char}
    (h : (trimStr s).reverse.head? = some c) : isJsSpace c = false := by
  rw [trimStr, List.reverse_reverse] at h
  have h2 := List.head?_dropWhile_not isJsSpace (s.dropWhile isJsSpace).reverse
  rw [h] at h2
  exact h2

theorem trimStr_isPrefix (s : Str) : trimStr s <+: s.dropWhile isJsSpace := by
  have hsuf : (s.dropWhile isJsSpace).reverse.dropWhile isJsSpace <:+
      (s.dropWhile isJsSpace).reverse :=
    List.dropWhile_suffix isJsSpace
  rw [trimStr]
  apply List.reverse_suffix.mp
  simpa using hsuf

theorem trimStr_head {s : Str} {c : Char} (h : (trimStr s).head? = some c) :
    isJsSpace c = false := by
  obtain ⟨t, ht⟩ := trimStr_isPrefix s
  cases htr : trimStr s with
  | nil => rw [htr] at h; simp at h
  | cons a as =>
    rw [htr] at h ht
    simp only [List.head?_cons, Option.some.injEq] at h
    subst h
    have h3 := List.head?_dropWhile_not isJsSpace s
    rw [← ht] at h3
    simpa using h3

theorem trimStr_trimStr (s : Str) : trimStr (trimStr s) = trimStr s := by
  have h1 : (trimStr s).dropWhile isJsSpace = trimStr s :=
    dropWhile_eq_self_of_head (fun _ hc => trimStr_head hc)
  rw [trimStr, h1]
  have h2 : (trimStr s).reverse.dropWhile isJsSpace = (trimStr s).reverse :=
    dropWhile_eq_self_of_head (fun _ hc => trimStr_reverse_head hc)
  rw [h2, List.reverse_reverse]

/- ### Progress of the two regex scanners -/

theorem matchInvokeHere_some_eq {s nm ps : Str} {len : Nat} {rest : Str}
    (h : matchInvokeHere s = some (nm, ps, len, rest)) :
    rest.length < s.length ∧ len = s.length - rest.length := by
  unfold matchInvokeHere at h
  cases h1 : dropLit invokeOpenLit s with
  | none => rw [h1] at h; exact absurd h (by simp)
  | some s1 =>
    rw [h1] at h
    dsimp only at h
    by_cases hw : (s1.takeWhile isJsSpace).isEmpty
    · rw [if_pos hw] at h; exact absurd h (by simp)
    · rw [if_neg hw] at h
      cases h2 : dropLit nameAttrLit (s1.dropWhile isJsSpace) with
      | none => rw [h2] at h; exact absurd h (by simp)
      | some s3 =>
        rw [h2] at h
        dsimp only at h
        by_cases hn : (s3.takeWhile (fun c => c ≠ '"')).isEmpty
        · rw [if_pos hn] at h; exact absurd h (by simp)
        · rw [if_neg hn] at h
          cases h3 : dropLit nameCloseLit (s3.dropWhile (fun c => c ≠ '"')) with
          | none => rw [h3] at h; exact absurd h (by simp)
          | some s5 =>
            rw [h3] at h
            dsimp only at h
            cases h4 : splitFirst invokeCloseLit s5 with
            | none => rw [h4] at h; exact absurd h (by simp)
            | some pr =>
              obtain ⟨ps', rest'⟩ := pr
              rw [h4] at h
              dsimp only at h
              injection h with h
              simp only [Prod.mk.injEq] at h
              obtain ⟨-, -, hlen, hrest⟩ := h
              rw [← hrest, ← hlen]
              have e1 := dropLit_some h1
              have e2 := dropLit_some h2
              have e3 := dropLit_some h3
              have e4 := splitFirst_eq_append h4
              have l1 : s.length = invokeOpenLit.length + s1.length := by
                rw [e1, List.length_append]
              have l2 : (s1.dropWhile isJsSpace).length ≤ s1.length :=
                length_dropWhile_le _ _
              have l3 : (s1.dropWhile isJsSpace).length =
                  nameAttrLit.length + s3.length := by
                rw [e2, List.length_append]
              have l4 : (s3.dropWhile (fun c => c ≠ '"')).length ≤ s3.length :=
                length_dropWhile_le _ _
              have l5 : (s3.dropWhile (fun c => c ≠ '"')).length =
                  nameCloseLit.length + s5.length := by
                rw [e3, List.length_append]
              have l6 : s5.length =
                  ps'.length + invokeCloseLit.length + rest'.length := by
                rw [e4]; simp [List.length_append]; omega
              have lo : invokeOpenLit.length = 7 := rfl
              have lc : invokeCloseLit.length = 9 := rfl
              have la : nameAttrLit.length = 6 := rfl
              have ln : nameCloseLit.length = 2 := rfl
              exact ⟨by omega, rfl⟩

theorem matchDirectHere_some_eq {s nm ps : Str} {len : Nat} {rest : Str}
    (h : matchDirectHere s = some (nm, ps, len, rest)) :
    rest.length < s.length ∧ len = s.length - rest.length := by
  cases s with
  | nil => rw [show matchDirectHere [] = none from rfl] at h; exact absurd h (by simp)
  | cons c0 s' =>
    cases s' with
    | nil =>
      rw [show matchDirectHere [c0] = none from rfl] at h
      exact absurd h (by simp)
    | cons c r =>
      rw [matchDirectHere] at h
      by_cases hs : c0 = '<' ∧ isIdentStart c = true
      · rw [if_pos hs] at h
        dsimp only at h
        cases h1 : dropLit ['>'] (r.dropWhile isIdentCont) with
        | none => rw [h1] at h; exact absurd h (by simp)
        | some s3 =>
          rw [h1] at h
          dsimp only at h
          cases h2 : splitFirst ('<' :: '/' :: (c :: r.takeWhile isIdentCont) ++ ['>']) s3 with
          | none => rw [h2] at h; exact absurd h (by simp)
          | some pr =>
            obtain ⟨ps', rest'⟩ := pr
            rw [h2] at h
            dsimp only at h
            injection h with h
            simp only [Prod.mk.injEq] at h
            obtain ⟨-, -, hlen, hrest⟩ := h
            rw [← hrest, ← hlen]
            have e1 := dropLit_some h1
            have e2 := splitFirst_eq_append h2
            have l1 : (r.dropWhile isIdentCont).length ≤ r.length :=
              length_dropWhile_le _ _
            have l2 : (r.dropWhile isIdentCont).length = 1 + s3.length := by
              rw [e1]; simp; omega
            have l3 : rest'.length + 4 ≤ s3.length := by
              rw [e2]
              simp [List.length_append]
              omega
            exact ⟨by simp; omega, rfl⟩
      · rw [if_neg hs] at h
        exact absurd h (by simp)

theorem goInvokes_succ (fuel : Nat) (s : Str) (pos : Nat) :
    goInvokes (fuel + 1) s pos =
      match matchInvokeHere s with
      | some (nm, ps, len, rest) =>
        (⟨nm, ps, pos, pos + len⟩ : ToolCall) :: goInvokes fuel rest (pos + len)
      | none =>
        match s with
        | [] => []
        | _ :: cs => goInvokes fuel cs (pos + 1) := rfl

theorem goDirects_succ (fuel : Nat) (s : Str) (pos : Nat) :
    goDirects (fuel + 1) s pos =
      match matchDirectHere s with
      | some (nm, ps, len, rest) =>
        (⟨nm, ps, pos, pos + len⟩ : ToolCall) :: goDirects fuel rest (pos + len)
      | none =>
        match s with
        | [] => []
        | _ :: cs => goDirects fuel cs (pos + 1) := rfl

theorem goInvokes_congr (f : Nat) : ∀ (g : Nat) (s : Str) (pos : Nat),
    s.length < f → s.length < g → goInvokes f s pos = goInvokes g s pos := by
  induction f with
  | zero => intro g s pos hf hg; omega
  | succ f ih =>
    intro g s pos hf hg
    cases g with
    | zero => omega
    | succ g =>
      rw [goInvokes_succ, goInvokes_succ]
      cases hm : matchInvokeHere s with
      | some r =>
        obtain ⟨nm, ps, len, rest⟩ := r
        have hlt := (matchInvokeHere_some_eq hm).1
        dsimp only
        rw [ih g rest (pos + len) (by omega) (by omega)]
      | none =>
        dsimp only
        cases s with
        | nil => rfl
        | cons c cs =>
          have h1 : cs.length < f := by simp at hf; omega
          have h2 : cs.length < g := by simp at hg; omega
          exact ih g cs (pos + 1) h1 h2

theorem findInvokes_matchStep {s nm ps : Str} {len : Nat} {rest : Str} (pos : Nat)
    (hm : matchInvokeHere s = some (nm, ps, len, rest)) :
    findInvokes s pos = ⟨nm, ps, pos, pos + len⟩ :: findInvokes rest (pos + len) := by
  rw [findInvokes, goInvokes_succ, hm]
  dsimp only
  rw [findInvokes]
  have hlt := (matchInvokeHere_some_eq hm).1
  rw [goInvokes_congr s.length (rest.length + 1) rest (pos + len) (by omega) (by omega)]

theorem findInvokes_skip {c : Char} {cs : Str} (pos : Nat)
    (hm : matchInvokeHere (c :: cs) = none) :
    findInvokes (c :: cs) pos = findInvokes cs (pos + 1) := by
  rw [findInvokes, goInvokes_succ, hm]
  rfl

theorem goDirects_congr (f : Nat) : ∀ (g : Nat) (s : Str) (pos : Nat),
    s.length < f → s.length < g → goDirects f s pos = goDirects g s pos := by
  induction f with
  | zero => intro g s pos hf hg; omega
  | succ f ih =>
    intro g s pos hf hg
    cases g with
    | zero => omega
    | succ g =>
      rw [goDirects_succ, goDirects_succ]
      cases hm : matchDirectHere s with
      | some r =>
        obtain ⟨nm, ps, len, rest⟩ := r
        have hlt := (matchDirectHere_some_eq hm).1
        dsimp only
        rw [ih g rest (pos + len) (by omega) (by omega)]
      | none =>
        dsimp only
        cases s with
        | nil => rfl
        | cons c cs =>
          have h1 : cs.length < f := by simp at hf; omega
          have h2 : cs.length < g := by simp at hg; omega
          exact ih g cs (pos + 1) h1 h2

theorem findDirects_matchStep {s nm ps : Str} {len : Nat} {rest : Str} (pos : Nat)
    (hm : matchDirectHere s = some (nm, ps, len, rest)) :
    findDirects s pos = ⟨nm, ps, pos, pos + len⟩ :: findDirects rest (pos + len) := by
  rw [findDirects, goDirects_succ, hm]
  dsimp only
  rw [findDirects]
  have hlt := (matchDirectHere_some_eq hm).1
  rw [goDirects_congr s.length (rest.length + 1) rest (pos + len) (by omega) (by omega)]

theorem findDirects_skip {c : Char} {cs : Str} (pos : Nat)
    (hm : matchDirectHere (c :: cs) = none) :
    findDirects (c :: cs) pos = findDirects cs (pos + 1) := by
  rw [findDirects, goDirects_succ, hm]
  rfl

theorem matchInvokeHere_ne_lt {c : Char} {cs : Str} (hc : c ≠ '<') :
    matchInvokeHere (c :: cs) = none := by
  have hnp : dropLit invokeOpenLit (c :: cs) = none := by
    rw [dropLit, if_neg]
    intro hp
    obtain ⟨t, ht⟩ := List.isPrefixOf_iff_prefix.mp hp
    rw [show invokeOpenLit = '<' :: "invoke".data from rfl] at ht
    injection ht with h1 _
    exact hc h1.symm
  unfold matchInvokeHere
  rw [hnp]

theorem matchDirectHere_ne_lt {c : Char} {cs : Str} (hc : c ≠ '<') :
    matchDirectHere (c :: cs) = none := by
  cases cs with
  | nil => rfl
  | cons c1 r =>
    rw [matchDirectHere, if_neg]
    intro h
    exact hc h.1

theorem findInvokes_append_noLt {t u : Str} (pos : Nat) (ht : noLt t = true) :
    findInvokes (t ++ u) pos = findInvokes u (pos + t.length) := by
  induction t generalizing pos with
  | nil => simp
  | cons c cs ih =>
    obtain ⟨hc, hcs⟩ := noLt_cons ht
    rw [List.cons_append, findInvokes_skip pos (matchInvokeHere_ne_lt hc),
      ih (pos + 1) hcs]
    congr 1
    simp
    omega

theorem findDirects_append_noLt {t u : Str} (pos : Nat) (ht : noLt t = true) :
    findDirects (t ++ u) pos = findDirects u (pos + t.length) := by
  induction t generalizing pos with
  | nil => simp
  | cons c cs ih =>
    obtain ⟨hc, hcs⟩ := noLt_cons ht
    rw [List.cons_append, findDirects_skip pos (matchDirectHere_ne_lt hc),
      ih (pos + 1) hcs]
    congr 1
    simp
    omega

/- ### Rendered documents: N explicit-wrapper calls interleaved with text

`renderDoc t0 items` is the input class of the order-preservation claim:
leading text `t0`, then for each item one explicit-wrapper call followed
by its trailing text.  Well-formedness (`wfItems`) pins down what
"markup-free interleaved text" and "well-formed call" mean: the
interleaved text contains no `'<'`, a call name is non-empty and free of
`'"'` and `'<'`, and a parameter block is free of `'<'`. -/

structure InvokeCall where
  name : Str
  params : Str

def renderCall (c : InvokeCall) : Str :=
  "<invoke name=\"".data ++ c.name ++ "\">".data ++ c.params ++ "</invoke>".data

def renderBody : List (InvokeCall × Str) → Str
  | [] => []
  | (c, t) :: rest => renderCall c ++ t ++ renderBody rest

def renderDoc (t0 : Str) (items : List (InvokeCall × Str)) : Str :=
  t0 ++ renderBody items

def wfName (n : Str) : Bool :=
  !n.isEmpty && n.all (fun c => c ≠ '"' && c ≠ '<')

def wfCall (c : InvokeCall) : Bool := wfName c.name && noLt c.params

def wfItems (items : List (InvokeCall × Str)) : Bool :=
  items.all (fun it => wfCall it.1 && noLt it.2)

/-- The candidate list the invoke-style scan is expected to produce on
a rendered document starting at offset `pos`. -/
def expInvokes : Nat → List (InvokeCall × Str) → List ToolCall
  | _, [] => []
  | pos, (c, t) :: rest =>
    ⟨c.name, c.params, pos, pos + (renderCall c).length⟩ ::
      expInvokes (pos + (renderCall c).length + t.length) rest

theorem noLt_append {a b : Str} (ha : noLt a = true) (hb : noLt b = true) :
    noLt (a ++ b) = true := by
  simp only [noLt, List.all_append, Bool.and_eq_true]
  exact ⟨ha, hb⟩

theorem wfCall_parts {c : InvokeCall} (h : wfCall c = true) :
    (¬ c.name.isEmpty = true) ∧ (∀ x ∈ c.name, x ≠ '"' ∧ x ≠ '<') ∧
      noLt c.params = true := by
  simp only [wfCall, wfName, Bool.and_eq_true, List.all_eq_true, Bool.not_eq_true',
    List.isEmpty_eq_false] at h
  refine ⟨by simp [h.1.1], fun x hx => ?_, h.2⟩
  have := h.1.2 x hx
  simp only [Bool.and_eq_true, decide_eq_true_eq] at this
  exact this

theorem renderCall_length (c : InvokeCall) :
    (renderCall c).length = c.name.length + c.params.length + 25 := by
  rw [renderCall]
  simp only [List.length_append]
  rw [show ("<invoke name=\"".data).length = 14 from rfl,
    show ("\">".data).length = 2 from rfl,
    show ("</invoke>".data).length = 9 from rfl]
  omega

theorem matchInvokeHere_renderCall {c : InvokeCall} (v : Str)
    (hw : wfCall c = true) :
    matchInvokeHere (renderCall c ++ v) =
      some (c.name, c.params, (renderCall c).length, v) := by
  obtain ⟨hne, hchars, hparams⟩ := wfCall_parts hw
  have hshape : renderCall c ++ v =
      invokeOpenLit ++ (' ' :: (nameAttrLit ++ (c.name ++
        (nameCloseLit ++ (c.params ++ (invokeCloseLit ++ v)))))) := by
    rw [renderCall]
    simp only [List.append_assoc]
    rfl
  rw [hshape]
  unfold matchInvokeHere
  rw [dropLit_self]
  dsimp only
  have hws := takeWhile_chunk (a := [' ']) (b := 'n') (t := "ame=\"".data ++
      (c.name ++ (nameCloseLit ++ (c.params ++ (invokeCloseLit ++ v)))))
      (p := isJsSpace) (by decide) (by decide)
  have hsp : ' ' :: (nameAttrLit ++ (c.name ++ (nameCloseLit ++ (c.params ++
      (invokeCloseLit ++ v))))) = [' '] ++ 'n' :: ("ame=\"".data ++
      (c.name ++ (nameCloseLit ++ (c.params ++ (invokeCloseLit ++ v))))) := rfl
  rw [hsp, hws.1, hws.2]
  rw [if_neg (by simp)]
  dsimp only
  have hattr : ('n' :: ("ame=\"".data ++ (c.name ++ (nameCloseLit ++
      (c.params ++ (invokeCloseLit ++ v)))))) = nameAttrLit ++ (c.name ++
      (nameCloseLit ++ (c.params ++ (invokeCloseLit ++ v)))) := rfl
  rw [hattr, dropLit_self]
  dsimp only
  have hnm := takeWhile_chunk (a := c.name) (b := '"')
      (t := '>' :: (c.params ++ (invokeCloseLit ++ v)))
      (p := fun x => decide (x ≠ '"'))
      (fun x hx => by simp [(hchars x hx).1]) (by simp)
  have hq : c.name ++ (nameCloseLit ++ (c.params ++ (invokeCloseLit ++ v))) =
      c.name ++ '"' :: ('>' :: (c.params ++ (invokeCloseLit ++ v))) := rfl
  rw [hq, hnm.1, hnm.2]
  rw [if_neg (by simpa using hne)]
  have hcl : ('"' :: ('>' :: (c.params ++ (invokeCloseLit ++ v)))) =
      nameCloseLit ++ (c.params ++ (invokeCloseLit ++ v)) := rfl
  rw [hcl, dropLit_self]
  dsimp only
  have hinner : splitFirst invokeCloseLit (invokeCloseLit ++ v) = some ([], v) := by
    have h1 : invokeCloseLit ++ v = '<' :: ("/invoke>".data ++ v) := rfl
    rw [h1, splitFirst_cons_isPrefix (by
      apply List.isPrefixOf_iff_prefix.mpr
      exact ⟨v, by rw [← h1]⟩)]
    rw [← h1, List.drop_left]
  have hsplit : splitFirst invokeCloseLit (c.params ++ (invokeCloseLit ++ v)) =
      some (c.params, v) := by
    have hpat : invokeCloseLit = '<' :: "/invoke>".data := rfl
    rw [hpat, splitFirst_append_noLt hparams, ← hpat, hinner]
    simp
  rw [hsplit]
  dsimp only
  simp only [Option.some.injEq, Prod.mk.injEq, true_and, and_true]
  simp only [List.length_append, List.length_cons, List.length_nil]
  rw [show invokeOpenLit.length = 7 from rfl, show nameAttrLit.length = 6 from rfl,
    show nameCloseLit.length = 2 from rfl, show invokeCloseLit.length = 9 from rfl,
    renderCall_length]
  omega

theorem wfItems_cons {c : InvokeCall} {t : Str} {rest : List (InvokeCall × Str)}
    (h : wfItems ((c, t) :: rest) = true) :
    wfCall c = true ∧ noLt t = true ∧ wfItems rest = true := by
  simp only [wfItems, List.all_cons, Bool.and_eq_true] at h
  exact ⟨h.1.1, h.1.2, h.2⟩

/-- The invoke-style scan finds exactly the rendered calls, in order,
with their source offsets. -/
theorem findInvokes_renderBody : ∀ (items : List (InvokeCall × Str)) (pos : Nat),
    wfItems items = true →
    findInvokes (renderBody items) pos = expInvokes pos items := by
  intro items
  induction items with
  | nil => intro pos _; rfl
  | cons it rest ih =>
    obtain ⟨c, t⟩ := it
    intro pos hwf
    obtain ⟨hwc, hwt, hwr⟩ := wfItems_cons hwf
    rw [renderBody, List.append_assoc]
    rw [findInvokes_matchStep pos
      (matchInvokeHere_renderCall (t ++ renderBody rest) hwc)]
    rw [findInvokes_append_noLt _ hwt]
    rw [ih _ hwr]
    rfl

/-- A direct-tag match attempt at the opening of a rendered invoke call
fails: the identifier run `invoke` is followed by a space, not `>`. -/
theorem matchDirectHere_invokeOpen (w : Str) :
    matchDirectHere ('<' :: 'i' :: ("nvoke".data ++ (' ' :: w))) = none := by
  rw [matchDirectHere, if_pos ⟨rfl, by decide⟩]
  dsimp only
  have htw := takeWhile_chunk (a := "nvoke".data) (b := ' ') (t := w)
      (p := isIdentCont) (by decide) (by decide)
  rw [htw.2]
  have hfail : dropLit ['>'] (' ' :: w) = none := by
    rw [dropLit, if_neg]
    intro hp
    obtain ⟨t2, ht2⟩ := List.isPrefixOf_iff_prefix.mp hp
    injection ht2 with h1 _
    exact absurd h1 (by decide)
  rw [hfail]

/-- A direct-tag match attempt at a closing tag fails: `/` cannot start
an identifier. -/
theorem matchDirectHere_slash (w : Str) :
    matchDirectHere ('<' :: '/' :: w) = none := by
  rw [matchDirectHere, if_neg]
  intro h
  exact absurd h.2 (by decide)

/-- The direct-tag scan finds nothing at all in a rendered body. -/
theorem findDirects_renderBody : ∀ (items : List (InvokeCall × Str)) (pos : Nat),
    wfItems items = true →
    findDirects (renderBody items) pos = [] := by
  intro items
  induction items with
  | nil => intro pos _; rfl
  | cons it rest ih =>
    obtain ⟨c, t⟩ := it
    intro pos hwf
    obtain ⟨hwc, hwt, hwr⟩ := wfItems_cons hwf
    obtain ⟨hne, hchars, hparams⟩ := wfCall_parts hwc
    have hnName : noLt c.name = true := by
      simp only [noLt, List.all_eq_true]
      intro x hx
      simp [(hchars x hx).2]
    have hshape : renderBody ((c, t) :: rest) =
        '<' :: 'i' :: ("nvoke".data ++ (' ' :: ("name=\"".data ++ (c.name ++
          ("\">".data ++ (c.params ++
            ('<' :: ('/' :: ("invoke>".data ++ (t ++ renderBody rest)))))))))) := by
      rw [renderBody, renderCall]
      simp only [List.append_assoc]
      rfl
    rw [hshape]
    rw [findDirects_skip pos (matchDirectHere_invokeOpen _)]
    rw [findDirects_skip _ (matchDirectHere_ne_lt (by decide))]
    have hmid : ("nvoke".data ++ (' ' :: ("name=\"".data ++ (c.name ++
        ("\">".data ++ (c.params ++
          ('<' :: ('/' :: ("invoke>".data ++ (t ++ renderBody rest)))))))))) =
        ("nvoke name=\"".data ++ (c.name ++ ("\">".data ++ c.params))) ++
          ('<' :: ('/' :: ("invoke>".data ++ (t ++ renderBody rest)))) := by
      simp only [List.append_assoc]
      rfl
    rw [hmid]
    rw [findDirects_append_noLt _ (by
      apply noLt_append
      · decide
      · exact noLt_append hnName (noLt_append (by decide) hparams))]
    rw [findDirects_skip _ (matchDirectHere_slash _)]
    rw [findDirects_skip _ (matchDirectHere_ne_lt (by decide))]
    rw [show ("invoke>".data ++ (t ++ renderBody rest)) =
      ("invoke>".data ++ t) ++ renderBody rest from by
        simp only [List.append_assoc]]
    rw [findDirects_append_noLt _ (noLt_append (by decide) hwt)]
    exact ih _ hwr

/-- No pattern of the form `<x...` with `x ∉ {i, /}` occurs in a
rendered body: every `'<'` there opens `<invoke ...` or `</invoke>`. -/
theorem splitFirst_renderBody_none {c₂ : Char} {p2 : Str}
    (h2i : c₂ ≠ 'i') (h2s : c₂ ≠ '/') :
    ∀ (items : List (InvokeCall × Str)), wfItems items = true →
      splitFirst ('<' :: c₂ :: p2) (renderBody items) = none := by
  intro items
  induction items with
  | nil => intro _; rfl
  | cons it rest ih =>
    obtain ⟨c, t⟩ := it
    intro hwf
    obtain ⟨hwc, hwt, hwr⟩ := wfItems_cons hwf
    obtain ⟨hne, hchars, hparams⟩ := wfCall_parts hwc
    have hnName : noLt c.name = true := by
      simp only [noLt, List.all_eq_true]
      intro x hx
      simp [(hchars x hx).2]
    have hshape : renderBody ((c, t) :: rest) =
        '<' :: 'i' :: ("nvoke".data ++ (' ' :: ("name=\"".data ++ (c.name ++
          ("\">".data ++ (c.params ++
            ('<' :: ('/' :: ("invoke>".data ++ (t ++ renderBody rest)))))))))) := by
      rw [renderBody, renderCall]
      simp only [List.append_assoc]
      rfl
    rw [hshape]
    rw [splitFirst_cons_miss (by
      intro hp
      obtain ⟨u, hu⟩ := List.isPrefixOf_iff_prefix.mp hp
      rw [List.cons_append, List.cons_append] at hu
      injection hu with _ hu2
      injection hu2 with hc2 _
      exact h2i hc2)]
    rw [splitFirst_cons_miss (by
      intro hp
      obtain ⟨u, hu⟩ := List.isPrefixOf_iff_prefix.mp hp
      rw [List.cons_append] at hu
      injection hu with hc2 _
      exact absurd hc2 (by decide))]
    have hmid : ("nvoke".data ++ (' ' :: ("name=\"".data ++ (c.name ++
        ("\">".data ++ (c.params ++
          ('<' :: ('/' :: ("invoke>".data ++ (t ++ renderBody rest)))))))))) =
        ("nvoke name=\"".data ++ (c.name ++ ("\">".data ++ c.params))) ++
          ('<' :: ('/' :: ("invoke>".data ++ (t ++ renderBody rest)))) := by
      simp only [List.append_assoc]
      rfl
    rw [hmid]
    rw [splitFirst_append_noLt (by
      apply noLt_append
      · decide
      · exact noLt_append hnName (noLt_append (by decide) hparams))]
    rw [splitFirst_cons_miss (by
      intro hp
      obtain ⟨u, hu⟩ := List.isPrefixOf_iff_prefix.mp hp
      rw [List.cons_append, List.cons_append] at hu
      injection hu with _ hu2
      injection hu2 with hc2 _
      exact h2s hc2)]
    rw [splitFirst_cons_miss (by
      intro hp
      obtain ⟨u, hu⟩ := List.isPrefixOf_iff_prefix.mp hp
      rw [List.cons_append] at hu
      injection hu with hc2 _
      exact absurd hc2 (by decide))]
    rw [show ("invoke>".data ++ (t ++ renderBody rest)) =
      ("invoke>".data ++ t) ++ renderBody rest from by
        simp only [List.append_assoc]]
    rw [splitFirst_append_noLt (noLt_append (by decide) hwt)]
    rw [ih hwr]
    rfl

theorem splitFirst_renderDoc_none {c₂ : Char} {p2 : Str}
    (h2i : c₂ ≠ 'i') (h2s : c₂ ≠ '/') {t0 : Str} {items : List (InvokeCall × Str)}
    (h0 : noLt t0 = true) (hwf : wfItems items = true) :
    splitFirst ('<' :: c₂ :: p2) (renderDoc t0 items) = none := by
  rw [renderDoc, splitFirst_append_noLt h0, splitFirst_renderBody_none h2i h2s items hwf]
  rfl

/- ### Identity of the pre-processing steps on clean inputs -/

/-- Whether a complete fabricated-result block (an opening tag with a
closing tag somewhere after it) is present — exactly the condition under
which the removal regex matches. -/
def hasFabricatedBlock (s : Str) : Bool :=
  match splitFirst openResultTag s with
  | none => false
  | some pr => hasSub closeResultTag pr.2

theorem splitFirst_drop {pat s pre r : Str}
    (h : splitFirst pat s = some (pre, r)) :
    r = s.drop (pre.length + pat.length) := by
  have he := splitFirst_eq_append h
  rw [he,
    show pre.length + pat.length = (pre ++ pat).length from (List.length_append _ _).symm,
    List.drop_left]

theorem hasFB_tail {c : Char} {cs : Str}
    (h : hasFabricatedBlock (c :: cs) = false) : hasFabricatedBlock cs = false := by
  unfold hasFabricatedBlock at h ⊢
  by_cases hp : openResultTag.isPrefixOf (c :: cs) = true
  · rw [splitFirst_cons_isPrefix hp] at h
    dsimp only at h
    cases hsf : splitFirst openResultTag cs with
    | none => rfl
    | some pr =>
      obtain ⟨pre2, r2⟩ := pr
      dsimp only
      have hr2 : r2 = cs.drop (pre2.length + openResultTag.length) :=
        splitFirst_drop hsf
      have hstep : r2 = ((c :: cs).drop openResultTag.length).drop (pre2.length + 1) := by
        rw [show (c :: cs).drop openResultTag.length =
          cs.drop (openResultTag.length - 1) from rfl]
        rw [List.drop_drop, hr2]
        congr 1
        rw [show openResultTag.length = 17 from rfl]
        omega
      rw [hstep]
      exact hasSub_drop_false _ h
  · rw [splitFirst_cons_miss hp] at h
    cases hsf : splitFirst openResultTag cs with
    | none => rfl
    | some pr =>
      rw [hsf] at h
      dsimp only at h ⊢
      exact h

theorem removeFabricatedGo_succ (fuel : Nat) (s : Str) :
    removeFabricatedGo (fuel + 1) s =
      (if openResultTag.isPrefixOf s then
        match splitFirst closeResultTag (s.drop openResultTag.length) with
        | some (_, post) => removeFabricatedGo fuel post
        | none => s
      else
        match s with
        | [] => []
        | c :: cs => c :: removeFabricatedGo fuel cs) := rfl

theorem removeFabricatedGo_id : ∀ (fuel : Nat) (s : Str),
    hasFabricatedBlock s = false → removeFabricatedGo fuel s = s := by
  intro fuel
  induction fuel with
  | zero => intro s _; rfl
  | succ fuel ih =>
    intro s hs
    by_cases hp : openResultTag.isPrefixOf s = true
    · have hcons : ∃ a as, s = a :: as := by
        cases s with
        | nil => exact absurd hp (by decide)
        | cons a as => exact ⟨a, as, rfl⟩
      obtain ⟨a, as, rfl⟩ := hcons
      unfold hasFabricatedBlock at hs
      rw [splitFirst_cons_isPrefix hp] at hs
      dsimp only at hs
      have hclose : splitFirst closeResultTag ((a :: as).drop openResultTag.length) = none := by
        cases hc : splitFirst closeResultTag ((a :: as).drop openResultTag.length) with
        | none => rfl
        | some pr =>
          rw [hasSub, hc] at hs
          exact absurd hs (by simp)
      rw [removeFabricatedGo_succ, if_pos hp, hclose]
    · rw [removeFabricatedGo_succ, if_neg hp]
      cases s with
      | nil => rfl
      | cons c cs =>
        have hcs : hasFabricatedBlock cs = false := hasFB_tail hs
        dsimp only
        rw [ih cs hcs]

theorem removeFabricated_id {s : Str} (h : hasFabricatedBlock s = false) :
    removeFabricated s = s := removeFabricatedGo_id _ _ h

theorem hasFabricatedBlock_of_noOpen {s : Str}
    (h : splitFirst openResultTag s = none) : hasFabricatedBlock s = false := by
  unfold hasFabricatedBlock
  rw [h]

theorem unwrapCallsBlocks_id {s : Str}
    (h : splitFirst openCallsTag s = none) : unwrapCallsBlocks s = s := by
  have hb : collectCallsBlocks s = [] := by
    rw [collectCallsBlocks, collectCallsBlocksGo, h]
  rw [unwrapCallsBlocks, hb]
  rfl

/- ### Sorting is the identity on the already-ordered invoke candidates -/

theorem expInvokes_start_ge : ∀ (items : List (InvokeCall × Str)) (pos : Nat),
    ∀ tc ∈ expInvokes pos items, pos ≤ tc.start := by
  intro items
  induction items with
  | nil => intro pos tc h; simp [expInvokes] at h
  | cons it rest ih =>
    obtain ⟨c, t⟩ := it
    intro pos tc h
    rw [expInvokes] at h
    rcases List.mem_cons.mp h with h1 | h2
    · rw [h1]
    · have := ih _ tc h2
      omega

theorem insertByStart_front {x : ToolCall} {l : List ToolCall}
    (h : ∀ y ∈ l, x.start ≤ y.start) : insertByStart x l = x :: l := by
  cases l with
  | nil => rfl
  | cons y ys =>
    rw [insertByStart, if_pos (h y (by simp))]

theorem sortByStart_expInvokes : ∀ (items : List (InvokeCall × Str)) (pos : Nat),
    sortByStart (expInvokes pos items) = expInvokes pos items := by
  intro items
  induction items with
  | nil => intro pos; rfl
  | cons it rest ih =>
    obtain ⟨c, t⟩ := it
    intro pos
    rw [expInvokes, sortByStart, ih]
    apply insertByStart_front
    intro y hy
    have := expInvokes_start_ge rest _ y hy
    simp only
    omega

/- ### The emission loop on a rendered document -/

/-- The (zero or one) text parts contributed by one raw text segment:
its trim when non-empty. -/
def gapParts (t : Str) : List Str :=
  if (trimStr t).isEmpty then [] else [trimStr t]

/-- Text parts expected from the trailing segments of the items. -/
def expTexts : List (InvokeCall × Str) → List Str
  | [] => []
  | (_, t) :: rest => gapParts t ++ expTexts rest

/-- The invocation built for one rendered call (span offsets do not
influence it). -/
def mkInvokeFC (c : InvokeCall) : FunctionCall :=
  mkFunctionCall ⟨c.name, c.params, 0, 0⟩

def expFCs (items : List (InvokeCall × Str)) : List FunctionCall :=
  items.map (fun it => mkInvokeFC it.1)

theorem emitLoop_nil (text : Str) (lastIdx : Nat) :
    emitLoop text [] lastIdx =
      (if lastIdx < text.length then
        (let trail := trimStr (text.drop lastIdx)
         if trail.isEmpty then ([], []) else ([trail], []))
      else ([], [])) := rfl

theorem emitLoop_cons (text : Str) (tc : ToolCall) (rest : List ToolCall)
    (lastIdx : Nat) :
    emitLoop text (tc :: rest) lastIdx =
      (let gap : List Str :=
        if lastIdx < tc.start then
          (let g := trimStr (subStr text lastIdx tc.start)
           if g.isEmpty then [] else [g])
        else []
      let r := emitLoop text rest tc.stop
      (gap ++ r.1, mkFunctionCall tc :: r.2)) := rfl

/-- The emission loop over the expected candidates of a rendered
document: every trailing text segment surfaces as its trimmed text part
and every call as its invocation, in order.  `lead` is the text between
the current `lastIndex` and the first candidate. -/
theorem emitLoop_render : ∀ (items : List (InvokeCall × Str)) (text : Str)
    (lastIdx : Nat) (lead : Str),
    text.drop lastIdx = lead ++ renderBody items →
    emitLoop text (expInvokes (lastIdx + lead.length) items) lastIdx =
      (gapParts lead ++ expTexts items, expFCs items) := by
  intro items
  induction items with
  | nil =>
    intro text lastIdx lead hdrop
    rw [show renderBody [] = [] from rfl, List.append_nil] at hdrop
    rw [show expInvokes (lastIdx + lead.length) [] = [] from rfl]
    rw [emitLoop_nil]
    cases lead with
    | nil =>
      by_cases hl : lastIdx < text.length
      · rw [if_pos hl, hdrop]
        rfl
      · rw [if_neg hl]
        rfl
    | cons a as =>
      have hlt : lastIdx < text.length := by
        by_contra hge
        have : text.drop lastIdx = [] := List.drop_eq_nil_of_le (by omega)
        rw [hdrop] at this
        exact absurd this (by simp)
      rw [if_pos hlt, hdrop]
      dsimp only
      rw [expTexts, gapParts]
      by_cases he : (trimStr (a :: as)).isEmpty
      · rw [if_pos he, if_pos he]
        rfl
      · rw [if_neg he, if_neg he]
        rfl
  | cons it rest ih =>
    obtain ⟨c, t⟩ := it
    intro text lastIdx lead hdrop
    rw [expInvokes, emitLoop_cons]
    dsimp only
    have hsub : subStr text lastIdx (lastIdx + lead.length) = lead := by
      rw [subStr, hdrop]
      rw [show lastIdx + lead.length - lastIdx = lead.length from by omega]
      rw [List.take_left]
    have hdrop2 : text.drop (lastIdx + lead.length + (renderCall c).length) =
        t ++ renderBody rest := by
      rw [show lastIdx + lead.length + (renderCall c).length =
        lastIdx + (lead.length + (renderCall c).length) from by omega]
      rw [← List.drop_drop, hdrop]
      rw [renderBody]
      rw [show lead ++ (renderCall c ++ t ++ renderBody rest) =
        (lead ++ renderCall c) ++ (t ++ renderBody rest) from by
          simp only [List.append_assoc]]
      rw [show lead.length + (renderCall c).length = (lead ++ renderCall c).length from
        (List.length_append _ _).symm]
      rw [List.drop_left]
    have hrec := ih text (lastIdx + lead.length + (renderCall c).length) t hdrop2
    rw [hrec]
    rw [show mkFunctionCall ⟨c.name, c.params, lastIdx + lead.length,
      lastIdx + lead.length + (renderCall c).length⟩ = mkInvokeFC c from rfl]
    rw [expTexts, expFCs]
    cases lead with
    | nil =>
      rw [if_neg (by simp)]
      rfl
    | cons a as =>
      rw [if_pos (by simp)]
      rw [hsub]
      by_cases he : (trimStr (a :: as)).isEmpty
      · simp [gapParts, expFCs, he]
      · simp [gapParts, expFCs, he]

theorem collectToolCalls_renderDoc {t0 : Str} {items : List (InvokeCall × Str)}
    (h0 : noLt t0 = true) (hwf : wfItems items = true) :
    collectToolCalls (renderDoc t0 items) = expInvokes t0.length items := by
  rw [collectToolCalls]
  have hi : findInvokes (renderDoc t0 items) 0 = expInvokes t0.length items := by
    rw [renderDoc, findInvokes_append_noLt _ h0, findInvokes_renderBody items _ hwf,
      Nat.zero_add]
  have hd : findDirects (renderDoc t0 items) 0 = [] := by
    rw [renderDoc, findDirects_append_noLt _ h0, findDirects_renderBody items _ hwf]
  rw [hi, hd]
  rfl

theorem parse_renderDoc {t0 : Str} {items : List (InvokeCall × Str)}
    (h0 : noLt t0 = true) (hwf : wfItems items = true) (hne : items ≠ []) :
    parseAnthropicToolCalls (renderDoc t0 items) =
      ⟨gapParts t0 ++ expTexts items, expFCs items⟩ := by
  have hrf : removeFabricated (renderDoc t0 items) = renderDoc t0 items := by
    apply removeFabricated_id
    apply hasFabricatedBlock_of_noOpen
    rw [show openResultTag = '<' :: 'f' :: "unction_result>".data from rfl]
    exact splitFirst_renderDoc_none (by decide) (by decide) h0 hwf
  have huw : unwrapCallsBlocks (renderDoc t0 items) = renderDoc t0 items := by
    apply unwrapCallsBlocks_id
    rw [show openCallsTag = '<' :: 'f' :: "unction_calls>".data from rfl]
    exact splitFirst_renderDoc_none (by decide) (by decide) h0 hwf
  have hemit := emitLoop_render items (renderDoc t0 items) 0 t0 (by
    rw [List.drop_zero, renderDoc])
  rw [Nat.zero_add] at hemit
  have hfne : (expFCs items).isEmpty = false := by
    cases items with
    | nil => exact absurd rfl hne
    | cons it rest => rfl
  rw [parseAnthropicToolCalls, hrf, huw, collectToolCalls_renderDoc h0 hwf,
    sortByStart_expInvokes, hemit]
  dsimp only
  rw [hfne]
  rfl

/-- Whether a canonical part is an invocation. -/
def isInvocationPart : Part → Bool
  | Part.functionCall _ => true
  | Part.text _ => false

theorem convert_renderDoc {t0 : Str} {items : List (InvokeCall × Str)}
    (h0 : noLt t0 = true) (hwf : wfItems items = true) :
    convertAnthropicResponseToParts (renderDoc t0 items) =
      (let combined := trimStr (joinNl (gapParts t0 ++ expTexts items))
       (if combined.isEmpty then [] else [Part.text combined]) ++
         (expFCs items).map Part.functionCall) := by
  cases items with
  | nil =>
    have hrf : removeFabricated (renderDoc t0 []) = renderDoc t0 [] := by
      apply removeFabricated_id
      apply hasFabricatedBlock_of_noOpen
      rw [show openResultTag = '<' :: 'f' :: "unction_result>".data from rfl]
      exact splitFirst_renderDoc_none (by decide) (by decide) h0 (by decide)
    have huw : unwrapCallsBlocks (renderDoc t0 []) = renderDoc t0 [] := by
      apply unwrapCallsBlocks_id
      rw [show openCallsTag = '<' :: 'f' :: "unction_calls>".data from rfl]
      exact splitFirst_renderDoc_none (by decide) (by decide) h0 (by decide)
    have hemit := emitLoop_render [] (renderDoc t0 []) 0 t0 (by
      rw [List.drop_zero, renderDoc])
    rw [Nat.zero_add] at hemit
    rw [convertAnthropicResponseToParts, parseAnthropicToolCalls, hrf, huw,
      collectToolCalls_renderDoc h0 (by decide), sortByStart_expInvokes, hemit]
    dsimp only
    rw [show renderDoc t0 [] = t0 from by rw [renderDoc, renderBody, List.append_nil]]
    rw [show expTexts [] = [] from rfl, show expFCs [] = [] from rfl, List.append_nil]
    rw [if_pos (show ([] : List FunctionCall).isEmpty = true from rfl)]
    dsimp only
    rw [show joinNl [t0] = t0 from rfl]
    rw [gapParts]
    by_cases he : (trimStr t0).isEmpty
    · simp [he, joinNl, show trimStr ([] : Str) = [] from rfl]
    · simp [he, joinNl, trimStr_trimStr]
  | cons it rest =>
    rw [convertAnthropicResponseToParts,
      parse_renderDoc h0 hwf (by simp)]

/-- The parts assembly of the synchronous text-fallback path: when at
least one call is parsed, the parts are exactly the invocations — the
parsed text segments are dropped. -/
theorem buildSyncContent_fallback (txt : Str)
    (h : (parseAnthropicToolCalls txt).functionCalls ≠ []) (sr : Option Str)
    (u : Option AnthUsage) :
    (buildSyncContent ⟨RawContent.nonArray (some txt), sr, u⟩).2.1 =
      (parseAnthropicToolCalls txt).functionCalls.map Part.functionCall := by
  rw [buildSyncContent]
  dsimp only [Option.getD]
  rw [if_neg (by
    intro hc
    have h1 := List.isEmpty_iff.mp hc.1
    rw [List.append_eq_nil] at h1
    exact absurd (List.map_eq_nil_iff.mp h1.1) h)]
  dsimp only
  rw [if_neg (by
    intro hc
    exact absurd (List.isEmpty_iff.mp hc.2) h)]
  rw [List.append_nil]

/- ### Streaming reconstructor step lemmas -/

theorem runStream_cons (cur : Option CurrentTool) (e : SseEvent)
    (rest : List SseEvent) :
    runStream cur (e :: rest) =
      (stepStream cur e).2 ++ runStream (stepStream cur e).1 rest := rfl

theorem stepStream_toolStart (cur : Option CurrentTool) (nm : Str) :
    stepStream cur (evToolStart nm) = (some ⟨nm, []⟩, []) := rfl

theorem stepStream_toolDelta (ct : CurrentTool) (d : Str) :
    stepStream (some ct) (evToolDelta d) = (some ⟨ct.name, ct.input ++ d⟩, []) := rfl

theorem stepStream_blockStop (ct : CurrentTool) :
    stepStream (some ct) evBlockStop =
      (none,
        [{ text := []
           parts := [Part.functionCall
             ⟨ct.name, (jsonParse ct.input).getD (Jv.jobj [])⟩]
           finishReason := none
           usage := none }]) := rfl

theorem runStream_deltas (ct : CurrentTool) (ds : List Str) (tail : List SseEvent) :
    runStream (some ct) (ds.map evToolDelta ++ tail) =
      runStream (some ⟨ct.name, ct.input ++ ds.flatten⟩) tail := by
  induction ds generalizing ct with
  | nil => simp
  | cons d ds ih =>
    rw [List.map_cons, List.cons_append, runStream_cons, stepStream_toolDelta]
    dsimp only
    rw [ih ⟨ct.name, ct.input ++ d⟩]
    simp [List.append_assoc]

/- ### Claim theorems -/

/-- C2 (code bug): the overlap filter of the candidate collector only
rejects a direct-tag match whose start or end lies inside an accepted
span; a direct-tag span that strictly CONTAINS an explicit invoke span
passes the test, so on
`<foo><invoke name="t">x</invoke></foo>` both candidates are
accepted with genuinely overlapping `[start, stop)` ranges — `[5, 32)`
inside `[0, 38)` — and the parser emits two invocations for the one
overlapping region, contradicting both the documented "skip if
overlapping" intent and the spec's no-overlap invariant. -/
theorem C2_overlap_code_bug :
    collectToolCalls ("<foo><invoke name=\"t\">x</invoke></foo>".data) =
      [⟨"t".data, "x".data, 5, 32⟩,
       ⟨"foo".data, "<invoke name=\"t\">x</invoke>".data, 0, 38⟩]
    ∧ ((5 : Nat) < 38 ∧ (0 : Nat) < 32)
    ∧ (parseAnthropicToolCalls
        ("<foo><invoke name=\"t\">x</invoke></foo>".data)).functionCalls.length = 2 :=
  ⟨by decide, by decide, by decide⟩

def cmdA : AiderCommand := ⟨1, "alpha".data, []⟩
def cmdB : AiderCommand := ⟨2, "beta".data, []⟩

/-- The orchestrator state after: A dispatched (its 30-second timer is
armed here), B enqueued behind it. -/
def c3Dispatched : ServiceState :=
  executeCommand (executeCommand ⟨true, [], none, [], []⟩ cmdA) cmdB

/-- The state after A completes legitimately (prompt marker observed),
which dispatches B. -/
def c3AfterA : ServiceState := handleOutput c3Dispatched "done> ".data

/-- C3 (code bug): the timeout callback's guard is
`this.currentCommand?.id === this.currentCommand?.id` — a comparison of
a value with itself — so when the timer armed at A's dispatch fires
after A has already completed and B is in flight, the callback settles
B.  The trace below shows it: after A's legitimate completion only A is
settled and B is current; firing the timer that was armed for A settles
B as well.  The claim (a timer armed for A never settles a later
command B) states the intended behaviour; the code violates it. -/
theorem C3_timeout_code_bug :
    c3Dispatched.currentCommand = some cmdA
    ∧ c3Dispatched.commandQueue = [cmdB]
    ∧ c3AfterA.currentCommand = some cmdB
    ∧ c3AfterA.settlements.map Prod.fst = [1]
    ∧ (timeoutFire c3AfterA).settlements.map Prod.fst = [1, 2]
    ∧ (timeoutFire c3AfterA).currentCommand = none :=
  ⟨by decide, by decide, by decide, by decide, by decide, by decide⟩

/-- The splicing input for C4: removing the inner
`<function_result>X</function_result>` block concatenates
`<function_` with `result>hello</function_result>`, forming a NEW
complete block that only a second application removes. -/
def c4Cx : Str :=
  "<function_<function_result>X</function_result>result>hello</function_result>".data

/-- C4 counterexample: fabricated-result removal is not idempotent — on
`c4Cx` one application leaves a complete fabricated block that a second
application removes, so the second application changes the string. -/
theorem C4_counterexample :
    removeFabricated c4Cx = "<function_result>hello</function_result>".data
    ∧ removeFabricated (removeFabricated c4Cx) = []
    ∧ removeFabricated (removeFabricated c4Cx) ≠ removeFabricated c4Cx :=
  ⟨by decide, by decide, by decide⟩

/-- C4 (amended): fabricated-result removal is idempotent on every
input whose once-processed result contains no complete
`<function_result>...</function_result>` block; in general the
single global pass can splice the fragments around removed blocks into
a new block (see the counterexample), which a second application then
removes. -/
theorem C4_idempotent_amended (s : Str)
    (h : hasFabricatedBlock (removeFabricated s) = false) :
    removeFabricated (removeFabricated s) = removeFabricated s :=
  removeFabricated_id h

theorem C4_idempotent_amended_witness :
    removeFabricated (removeFabricated ("a<function_result>x</function_result>b".data)) =
      removeFabricated ("a<function_result>x</function_result>b".data) :=
  C4_idempotent_amended _ (by decide)

/-- C6: feeding tool-block-start("f"), tool-argument-delta of the JSON
object with field a = 1, tool-block-stop yields exactly one invocation
fragment named `f` with arguments `a ↦ 1`; the same sequence without
the final stop yields zero invocation fragments — an unterminated call
is never surfaced. -/
theorem C6_streaming_reconstruction :
    invocationFragments (runStream none
      [evToolStart "f".data, evToolDelta "\x7b\"a\":1\x7d".data, evBlockStop]) =
      [⟨"f".data, Jv.jobj [("a".data, Jv.jnum "1".data)]⟩]
    ∧ invocationFragments (runStream none
      [evToolStart "f".data, evToolDelta "\x7b\"a\":1\x7d".data]) = [] :=
  ⟨rfl, rfl⟩

/-- C7: for every streamed tool block whose accumulated argument text
fails to decode as JSON at tool-block-stop, the reconstructor emits
exactly one invocation fragment with the empty argument object; no
error escapes (the dispatcher is total — the decode failure is absorbed
into the empty-object default exactly as the source's try/catch
does). -/
theorem C7_malformed_arguments (nm : Str) (ds : List Str)
    (h : jsonParse ds.flatten = none) :
    invocationFragments (runStream none
      ([evToolStart nm] ++ ds.map evToolDelta ++ [evBlockStop])) =
      [⟨nm, Jv.jobj []⟩] := by
  rw [show [evToolStart nm] ++ ds.map evToolDelta ++ [evBlockStop] =
    evToolStart nm :: (ds.map evToolDelta ++ [evBlockStop]) from by simp]
  rw [runStream_cons, stepStream_toolStart]
  dsimp only
  rw [runStream_deltas ⟨nm, []⟩]
  dsimp only
  rw [runStream_cons, stepStream_blockStop]
  dsimp only
  rw [show (([] : Str) ++ ds.flatten) = ds.flatten from List.nil_append _]
  rw [invocationFragments]
  rw [h]
  rfl

theorem C7_malformed_arguments_witness :
    invocationFragments (runStream none
      ([evToolStart "g".data] ++ ["\x7b".data].map evToolDelta ++ [evBlockStop])) =
      [⟨"g".data, Jv.jobj []⟩] :=
  C7_malformed_arguments "g".data ["\x7b".data] rfl

/-- C8: when the subprocess exits while command A is in flight and any
number of commands are queued, A and every queued command are all
rejected with the same `processTerminated` error, in order, the queue
is left empty, nothing remains in flight, and no resolved (fabricated)
result is appended for any of them. -/
theorem C8_atomic_failure (s : ServiceState) (A : AiderCommand)
    (h : s.currentCommand = some A) :
    (onProcessClose s).settlements =
      s.settlements ++ (A.id, Outcome.rejected AiderError.processTerminated) ::
        s.commandQueue.map (fun c => (c.id, Outcome.rejected AiderError.processTerminated))
    ∧ (onProcessClose s).commandQueue = []
    ∧ (onProcessClose s).currentCommand = none
    ∧ (onProcessClose s).processRunning = false := by
  unfold onProcessClose rejectAllPending
  rw [show ({ s with processRunning := false } : ServiceState).currentCommand =
    s.currentCommand from rfl]
  rw [h]
  dsimp only
  refine ⟨?_, rfl, rfl, rfl⟩
  simp

def c8State : ServiceState :=
  ⟨true, [cmdB, ⟨3, "gamma".data, []⟩], some cmdA, [], []⟩

theorem C8_atomic_failure_witness :
    (onProcessClose c8State).settlements =
      [(1, Outcome.rejected AiderError.processTerminated),
       (2, Outcome.rejected AiderError.processTerminated),
       (3, Outcome.rejected AiderError.processTerminated)]
    ∧ (onProcessClose c8State).commandQueue = [] :=
  ⟨((C8_atomic_failure c8State cmdA rfl).1).trans (by decide),
   (C8_atomic_failure c8State cmdA rfl).2.1⟩

/-- C9: whenever the backend supplies both token counters, the
synchronous response's usage metadata satisfies
`totalTokenCount = promptTokenCount + candidatesTokenCount` (all three
fields are present and total is the sum). -/
theorem C9_usage_total (data : AnthData) (u : AnthUsage) (i o : Int)
    (hu : data.usage = some u) (hi : u.inputTokens = some i)
    (ho : u.outputTokens = some o) :
    (buildSyncResult data).usageMetadata.totalTokenCount = some (i + o)
    ∧ (buildSyncResult data).usageMetadata.promptTokenCount = some i
    ∧ (buildSyncResult data).usageMetadata.candidatesTokenCount = some o := by
  rw [buildSyncResult]
  dsimp only
  rw [buildUsageMeta, hu]
  dsimp only [Option.bind]
  rw [hi, ho]
  exact ⟨rfl, rfl, rfl⟩

def c9Data : AnthData := ⟨RawContent.absent, none, some ⟨some 3, some 5⟩⟩

theorem C9_usage_total_witness :
    (buildSyncResult c9Data).usageMetadata.totalTokenCount = some 8
    ∧ (buildSyncResult c9Data).usageMetadata.promptTokenCount = some 3
    ∧ (buildSyncResult c9Data).usageMetadata.candidatesTokenCount = some 5 :=
  C9_usage_total c9Data ⟨some 3, some 5⟩ 3 5 rfl rfl rfl

/-- C10: `getAiderService` returns the instance stored on the first
call for every later call, even with a different `Config`: no new
service is created, the stored handle is not rebound, and the returned
service still carries the first caller's configuration (hence its
working directory). -/
theorem C10_singleton_binding (c1 c2 : AiderConfig) :
    (getAiderService c2 (getAiderService c1 none).2).1 = (getAiderService c1 none).1
    ∧ (getAiderService c2 (getAiderService c1 none).2).1.config = c1
    ∧ (getAiderService c2 (getAiderService c1 none).2).2 = (getAiderService c1 none).2
    ∧ (getAiderService c2 (getAiderService c1 none).2).1.config.targetDir =
        c1.targetDir :=
  ⟨rfl, rfl, rfl, rfl⟩

theorem countP_map_fc (l : List FunctionCall) :
    (l.map Part.functionCall).countP isInvocationPart = l.length := by
  induction l with
  | nil => rfl
  | cons x xs ih => simp [List.countP_cons, isInvocationPart, ih]

/-- C1 counterexample: on the synchronous adapter's text-fallback path
(`generateContent` lines 122-135, one of the claim's two cited sites),
a non-empty text segment that precedes a call in the source text does
NOT precede that call's invocation part in the emitted canonical part
sequence — it is dropped entirely: the parser finds the text part
`hello` before the call, yet the emitted parts consist of the lone
invocation. -/
theorem C1_counterexample :
    (parseAnthropicToolCalls ("hello <invoke name=\"t\"></invoke>".data)).textParts =
      ["hello".data]
    ∧ (buildSyncContent ⟨RawContent.nonArray
        (some ("hello <invoke name=\"t\"></invoke>".data)), none, none⟩).2.1 =
      [Part.functionCall ⟨"t".data, Jv.jobj []⟩] :=
  ⟨by decide, rfl⟩

/-- C1 (amended): source-order preservation holds for the standalone
converter `convertAnthropicResponseToParts`: for every document of N
well-formed explicit-wrapper calls interleaved with markup-free text,
the emitted canonical part sequence is the combined non-empty text as a
single leading part followed by exactly N invocation parts in
left-to-right source-offset order, so all text (in particular every
non-empty segment preceding a call) precedes every invocation part; on
the synchronous adapter's text-fallback path, however, once at least
one call is parsed the emitted parts are exactly the N invocation parts
in source order with every text segment dropped. -/
theorem C1_source_order_amended (t0 : Str) (items : List (InvokeCall × Str))
    (h0 : noLt t0 = true) (hwf : wfItems items = true) :
    (convertAnthropicResponseToParts (renderDoc t0 items) =
      (let combined := trimStr (joinNl (gapParts t0 ++ expTexts items))
       (if combined.isEmpty then [] else [Part.text combined]) ++
         (expFCs items).map Part.functionCall))
    ∧ (convertAnthropicResponseToParts (renderDoc t0 items)).countP isInvocationPart
        = items.length
    ∧ (∀ txt, (parseAnthropicToolCalls txt).functionCalls ≠ [] →
        ∀ sr u, (buildSyncContent ⟨RawContent.nonArray (some txt), sr, u⟩).2.1 =
          (parseAnthropicToolCalls txt).functionCalls.map Part.functionCall) := by
  refine ⟨convert_renderDoc h0 hwf, ?_,
    fun txt h sr u => buildSyncContent_fallback txt h sr u⟩
  rw [convert_renderDoc h0 hwf]
  dsimp only
  rw [List.countP_append, countP_map_fc]
  rw [show (expFCs items).length = items.length from by rw [expFCs, List.length_map]]
  by_cases hc : (trimStr (joinNl (gapParts t0 ++ expTexts items))).isEmpty
  · rw [if_pos hc]
    simp
  · rw [if_neg hc]
    simp [List.countP_cons, isInvocationPart]

theorem C1_source_order_amended_witness :
    (convertAnthropicResponseToParts (renderDoc "hello ".data
      [(⟨"read_file".data, []⟩, " done".data)])).countP isInvocationPart = 1 :=
  (C1_source_order_amended "hello ".data [(⟨"read_file".data, []⟩, " done".data)]
    (by decide) (by decide)).2.1

/-- C5: the router `detectProvider` returns the native path (`none`)
for an absent or empty model identifier with no error and no adapter
construction; for an identifier of the Anthropic family with the auth
token or base URL unset (or empty), it throws the configuration error
whose message names the required variables — before anything that could
reach the network; with both variables set it returns the adapter
built from the environment; any other identifier falls through to the
native path. -/
theorem C5_router (env : ProviderEnv) (m : Str) :
    (detectProvider env none = .ok none)
    ∧ (detectProvider env (some []) = .ok none)
    ∧ ((hasSub "claude".data (lowerStr m) || hasSub "anthropic".data (lowerStr m)) = true →
        ¬ (truthy env.anthropicAuthToken = true ∧ truthy env.anthropicBaseUrl = true) →
        m ≠ [] →
        detectProvider env (some m) =
            .error (FactoryError.missingConfig m configMsgVars)
          ∧ "ANTHROPIC_AUTH_TOKEN".data ∈ configMsgVars
          ∧ "ANTHROPIC_BASE_URL".data ∈ configMsgVars)
    ∧ ((hasSub "claude".data (lowerStr m) || hasSub "anthropic".data (lowerStr m)) = true →
        truthy env.anthropicAuthToken = true →
        truthy env.anthropicBaseUrl = true →
        m ≠ [] →
        detectProvider env (some m) = .ok (some ⟨{
          authToken := jsOrStr env.anthropicAuthToken []
          baseUrl := jsOrStr env.anthropicBaseUrl "https://api.anthropic.com".data
          model := jsOrStr env.anthropicModel "claude-3-opus-20240229".data }⟩))
    ∧ ((hasSub "claude".data (lowerStr m) || hasSub "anthropic".data (lowerStr m)) = false →
        m ≠ [] →
        detectProvider env (some m) = .ok none) := by
  refine ⟨rfl, rfl, ?_, ?_, ?_⟩
  · intro hfam hcfg hm
    rw [detectProvider]
    rw [if_neg (by simpa using hm)]
    dsimp only
    rw [if_pos hfam]
    rw [if_pos (not_and_or.mp hcfg)]
    exact ⟨rfl, by decide, by decide⟩
  · intro hfam ha hb hm
    rw [detectProvider]
    rw [if_neg (by simpa using hm)]
    dsimp only
    rw [if_pos hfam]
    rw [if_neg (by
      intro hor
      rcases hor with h1 | h1
      · exact h1 ha
      · exact h1 hb)]
    have htok : (jsOrStr env.anthropicAuthToken []).isEmpty = false := by
      cases henv : env.anthropicAuthToken with
      | none => rw [henv] at ha; exact absurd ha (by decide)
      | some s =>
        rw [henv] at ha
        rw [jsOrStr]
        rw [if_neg (by
          intro hse
          rw [truthy] at ha
          simp [hse] at ha)]
        simpa [truthy] using ha
    rw [mkAnthropicProvider]
    rw [if_neg (by simp [htok])]
  · intro hfam hm
    rw [detectProvider]
    rw [if_neg (by simpa using hm)]
    dsimp only
    rw [if_neg (by simp [hfam])]

theorem C5_router_witness :
    (detectProvider ⟨some "tok".data, some "url".data, none⟩ none = .ok none)
    ∧ (detectProvider ⟨none, none, none⟩ (some "claude-x".data) =
        .error (FactoryError.missingConfig "claude-x".data configMsgVars))
    ∧ (detectProvider ⟨some "tok".data, some "url".data, none⟩ (some "Claude-3".data) =
        .ok (some ⟨⟨"tok".data, "url".data, "claude-3-opus-20240229".data⟩⟩))
    ∧ (detectProvider ⟨some "tok".data, some "url".data, none⟩ (some "gpt-4".data) =
        .ok none) := by
  refine ⟨(C5_router ⟨some "tok".data, some "url".data, none⟩ []).1, ?_, ?_, ?_⟩
  · exact ((C5_router ⟨none, none, none⟩ "claude-x".data).2.2.1
      (by decide) (by decide) (by decide)).1
  · exact ((C5_router ⟨some "tok".data, some "url".data, none⟩ "Claude-3".data).2.2.2.1
      (by decide) (by decide) (by decide) (by decide))
  · exact (C5_router ⟨some "tok".data, some "url".data, none⟩ "gpt-4".data).2.2.2.2
      (by decide) (by decide)

end GeminiAnthropic
